import Mathlib

/-!
Shallow embedding of the Sudoku-dice repository (bissectra/Sudoku).

Embedded from the TypeScript sources:
* orientation module (src/unnamed/part_003): the 24 legal cube orientations,
  the roll tables, digit predicates and the rotation-sequence index;
* src/src/diceController.ts: the DiceController state machine (seeded RNG,
  partial-Latin-square solver, roll lifecycle with validation and rollback).

JavaScript numbers are modelled as Nat/Int with explicit `% 2^32` where the
code truncates with `>>> 0`; `Math.floor(x * k)` on the RNG output is exact
in doubles for the small factors `k` used here, and is modelled as
`state * k / 2^32` in integer arithmetic.  Arrays are Lean lists; JS `Map`
and `Set` are association lists / membership lists.  Thrown exceptions are
`Option`/`Except` `none`/`error` results.  `performance.now()` timestamps are
passed in explicitly as `Nat` arguments.
-/

namespace Sudoku

/-- The six face labels (enum Orientation in the source). -/
inductive Orientation where
  | TOP | NORTH | EAST | BOTTOM | SOUTH | WEST
deriving DecidableEq, Repr, Fintype

/-- The four roll directions (type DiceRotation in the source). -/
inductive DiceRotation where
  | left | up | right | down
deriving DecidableEq, Repr, Fintype

/-- Source: DICE_ROTATIONS = ["left", "up", "right", "down"]. -/
def DICE_ROTATIONS : List DiceRotation := [.left, .up, .right, .down]

open Orientation in
/-- The 24-entry XY_ORIENTATIONS table: (x, y, derived z). -/
def XY_ORIENTATIONS : List (Orientation × Orientation × Orientation) :=
  [ (EAST, NORTH, TOP),
    (EAST, SOUTH, BOTTOM),
    (EAST, TOP, SOUTH),
    (EAST, BOTTOM, NORTH),
    (WEST, NORTH, BOTTOM),
    (WEST, SOUTH, TOP),
    (WEST, TOP, NORTH),
    (WEST, BOTTOM, SOUTH),
    (NORTH, EAST, BOTTOM),
    (NORTH, WEST, TOP),
    (NORTH, TOP, EAST),
    (NORTH, BOTTOM, WEST),
    (SOUTH, EAST, TOP),
    (SOUTH, WEST, BOTTOM),
    (SOUTH, TOP, WEST),
    (SOUTH, BOTTOM, EAST),
    (TOP, EAST, NORTH),
    (TOP, WEST, SOUTH),
    (TOP, NORTH, WEST),
    (TOP, SOUTH, EAST),
    (BOTTOM, EAST, SOUTH),
    (BOTTOM, WEST, NORTH),
    (BOTTOM, NORTH, EAST),
    (BOTTOM, SOUTH, WEST) ]

/-- Z_FROM_XY: lookup of the derived third face from the (x, y) key.
The JS Map keyed by the string "x|y" is modelled as a first-match lookup on
the pair itself (the 24 keys are distinct, so first-match = the map). -/
def Z_FROM_XY (x y : Orientation) : Option Orientation :=
  (XY_ORIENTATIONS.find? (fun t => t.1 = x && t.2.1 = y)).map (fun t => t.2.2)

/-- The constructor guard of class CubeOrientation: the (x, y) pair is legal
iff Z_FROM_XY has the key. -/
def isLegalXY (x y : Orientation) : Bool := (Z_FROM_XY x y).isSome

open Orientation in
/-- ROLL_TABLE: per-direction partial permutation of face labels; labels not
in the table pass through unchanged (the `?? orientation` fallback). -/
def ROLL_TABLE (d : DiceRotation) (o : Orientation) : Orientation :=
  match d, o with
  | .up, TOP => NORTH
  | .up, NORTH => BOTTOM
  | .up, BOTTOM => SOUTH
  | .up, SOUTH => TOP
  | .down, TOP => SOUTH
  | .down, SOUTH => BOTTOM
  | .down, BOTTOM => NORTH
  | .down, NORTH => TOP
  | .right, TOP => EAST
  | .right, EAST => BOTTOM
  | .right, BOTTOM => WEST
  | .right, WEST => TOP
  | .left, TOP => WEST
  | .left, WEST => BOTTOM
  | .left, BOTTOM => EAST
  | .left, EAST => TOP
  | _, o => o

/-- class CubeOrientation: the two stored face labels together with the
constructor's guarantee that the pair is one of the 24 legal ones (the
constructor throws otherwise; see mkCubeOrientation). -/
structure CubeOrientation where
  x : Orientation
  y : Orientation
  legal : isLegalXY x y = true

instance : DecidableEq CubeOrientation := fun a b =>
  if h : a.x = b.x ∧ a.y = b.y then
    isTrue (by cases a; cases b; cases h.1; cases h.2; rfl)
  else
    isFalse (fun hh => by cases hh; exact h ⟨rfl, rfl⟩)

/-- The CubeOrientation constructor: returns the value when the pair is
legal, and none where the TS constructor throws "Invalid orientation
combination". -/
def mkCubeOrientation (x y : Orientation) : Option CubeOrientation :=
  if h : isLegalXY x y = true then some ⟨x, y, h⟩ else none

/-- The derived z face (getter `z`); total because the stored pair is legal. -/
def CubeOrientation.z (o : CubeOrientation) : Orientation :=
  (Z_FROM_XY o.x o.y).getD Orientation.TOP

/-- CubeOrientation.roll as written: applies the direction's table to both
stored labels and re-runs the constructor (which can in principle throw). -/
def CubeOrientation.roll (o : CubeOrientation) (d : DiceRotation) :
    Option CubeOrientation :=
  mkCubeOrientation (ROLL_TABLE d o.x) (ROLL_TABLE d o.y)

theorem roll_closed : ∀ x y : Orientation, isLegalXY x y = true →
    isLegalXY (ROLL_TABLE .left x) (ROLL_TABLE .left y) = true ∧
    isLegalXY (ROLL_TABLE .up x) (ROLL_TABLE .up y) = true ∧
    isLegalXY (ROLL_TABLE .right x) (ROLL_TABLE .right y) = true ∧
    isLegalXY (ROLL_TABLE .down x) (ROLL_TABLE .down y) = true := by decide

/-- Total version of roll, used once roll_closed has shown the constructor
can never throw from a legal orientation. -/
def rollT (o : CubeOrientation) (d : DiceRotation) : CubeOrientation :=
  ⟨ROLL_TABLE d o.x, ROLL_TABLE d o.y, by
    have h := roll_closed o.x o.y o.legal
    cases d
    · exact h.1
    · exact h.2.1
    · exact h.2.2.1
    · exact h.2.2.2⟩

theorem roll_eq_rollT (o : CubeOrientation) (d : DiceRotation) :
    o.roll d = some (rollT o d) := by
  unfold CubeOrientation.roll mkCubeOrientation rollT
  rw [dif_pos]

/-- CubeOrientation.identity(): the canonical orientation (EAST, NORTH). -/
def CubeOrientation.identity : CubeOrientation :=
  ⟨Orientation.EAST, Orientation.NORTH, by decide⟩

/-- ALL_ORIENTATIONS: the 24 legal orientations, in XY_ORIENTATIONS order. -/
def ALL_ORIENTATIONS : List CubeOrientation :=
  [ ⟨.EAST, .NORTH, by decide⟩, ⟨.EAST, .SOUTH, by decide⟩,
    ⟨.EAST, .TOP, by decide⟩, ⟨.EAST, .BOTTOM, by decide⟩,
    ⟨.WEST, .NORTH, by decide⟩, ⟨.WEST, .SOUTH, by decide⟩,
    ⟨.WEST, .TOP, by decide⟩, ⟨.WEST, .BOTTOM, by decide⟩,
    ⟨.NORTH, .EAST, by decide⟩, ⟨.NORTH, .WEST, by decide⟩,
    ⟨.NORTH, .TOP, by decide⟩, ⟨.NORTH, .BOTTOM, by decide⟩,
    ⟨.SOUTH, .EAST, by decide⟩, ⟨.SOUTH, .WEST, by decide⟩,
    ⟨.SOUTH, .TOP, by decide⟩, ⟨.SOUTH, .BOTTOM, by decide⟩,
    ⟨.TOP, .EAST, by decide⟩, ⟨.TOP, .WEST, by decide⟩,
    ⟨.TOP, .NORTH, by decide⟩, ⟨.TOP, .SOUTH, by decide⟩,
    ⟨.BOTTOM, .EAST, by decide⟩, ⟨.BOTTOM, .WEST, by decide⟩,
    ⟨.BOTTOM, .NORTH, by decide⟩, ⟨.BOTTOM, .SOUTH, by decide⟩ ]

/-- Every value of the CubeOrientation type is one of the 24 listed ones. -/
theorem mem_ALL_ORIENTATIONS (o : CubeOrientation) : o ∈ ALL_ORIENTATIONS := by
  obtain ⟨x, y, h⟩ := o
  revert h
  revert x y
  decide

/-- INVERSE_ROTATION: left↔right, up↔down. -/
def INVERSE_ROTATION (d : DiceRotation) : DiceRotation :=
  match d with
  | .left => .right
  | .right => .left
  | .up => .down
  | .down => .up

theorem rollT_rollT_inverse (o : CubeOrientation) (d : DiceRotation) :
    rollT (rollT o d) (INVERSE_ROTATION d) = o := by
  have h : ∀ p ∈ ALL_ORIENTATIONS, ∀ e : DiceRotation,
      rollT (rollT p e) (INVERSE_ROTATION e) = p := by decide
  exact h o (mem_ALL_ORIENTATIONS o) d

/-- DICE_DIGITS = [1, 2, 3, 4, 5, 6]. -/
def DICE_DIGITS : List Nat := [1, 2, 3, 4, 5, 6]

/-- DIGIT_ORIENTATION_PREDICATES: which digit faces up, as six predicates
over (x, y, derived z).  Digits outside 1..6 have no predicate (the record
lookup is undefined); modelled as false, and only 1..6 are ever queried. -/
def DIGIT_ORIENTATION_PREDICATES (digit : Nat) (o : CubeOrientation) : Bool :=
  match digit with
  | 1 => o.z = Orientation.TOP
  | 2 => o.y = Orientation.BOTTOM
  | 3 => o.x = Orientation.TOP
  | 4 => o.x = Orientation.BOTTOM
  | 5 => o.y = Orientation.TOP
  | 6 => o.z = Orientation.BOTTOM
  | _ => false

/-- getTopFaceValueFromOrientation: first digit (in DICE_DIGITS order) whose
predicate holds; none models the "Unable to determine top face value" throw. -/
def getTopFaceValueFromOrientation (o : CubeOrientation) : Option Nat :=
  DICE_DIGITS.find? (fun digit => DIGIT_ORIENTATION_PREDICATES digit o)

/-- ORIENTATIONS_FOR_TOP_DIGIT: the orientations whose top face shows the
digit, in ALL_ORIENTATIONS order (the source builds the same lists by
iterating ALL_ORIENTATIONS and pushing matches). -/
def ORIENTATIONS_FOR_TOP_DIGIT (digit : Nat) : List CubeOrientation :=
  ALL_ORIENTATIONS.filter (fun o => DIGIT_ORIENTATION_PREDICATES digit o)

/-- RANDOM_SEED = 0xdeadbeef. -/
def RANDOM_SEED : Nat := 0xdeadbeef

/-- The state update of seededRandom():
`this.rngState = (this.rngState * 1664525 + 1013904223) >>> 0`. -/
def seededRandomState (s : Nat) : Nat := (s * 1664525 + 1013904223) % 4294967296

/-- The value returned by seededRandom(): `this.rngState / 0x100000000`,
exact in rationals. -/
def seededRandomValue (s : Nat) : ℚ := (seededRandomState s : ℚ) / 4294967296

/-- The rng state after n calls to seededRandom() starting from seed. -/
def rngStream (seed : Nat) : Nat → Nat
  | 0 => seed
  | n + 1 => seededRandomState (rngStream seed n)

/-- Math.floor(seededRandom() * k): since the state fits 32 bits and
k ≤ 2^20 here, the double computation is exact and equals integer
state * k / 2^32.  Returns (floor value, new rng state). -/
def randIndex (s k : Nat) : Nat × Nat :=
  let s1 := seededRandomState s
  (s1 * k / 4294967296, s1)

/-- One swap `[array[i], array[j]] = [array[j], array[i]]`. -/
def listSwap {α : Type} (l : List α) (i j : Nat) : List α :=
  match l.get? i, l.get? j with
  | some a, some b => (l.set i b).set j a
  | _, _ => l

/-- The Fisher-Yates loop of shuffleArray, abstracted over the random index
source (instantiated with randIndex): iteration at index i+1 picks
j = Math.floor(seededRandom() * (i+2)) and swaps; counts down to index 1. -/
def shuffleGoF {α : Type} (rand : Nat → Nat → Nat × Nat) :
    List α → Nat → Nat → List α × Nat
  | l, s, 0 => (l, s)
  | l, s, i + 1 =>
    match rand s (i + 2) with
    | (j, s1) => shuffleGoF rand (listSwap l (i + 1) j) s1 i

/-- shuffleArray: copy then Fisher-Yates from the last index down to 1. -/
def shuffleArray {α : Type} (l : List α) (s : Nat) : List α × Nat :=
  shuffleGoF randIndex l s (l.length - 1)

/-- pickRandomElement (used on orientation lists only). -/
def pickRandomElement (l : List CubeOrientation) (s : Nat) :
    CubeOrientation × Nat :=
  let p := randIndex s l.length
  (l.getD p.1 CubeOrientation.identity, p.2)

/-- DICE_ROTATIONS[Math.floor(seededRandom() * DICE_ROTATIONS.length)]. -/
def pickRandomRotation (s : Nat) : DiceRotation × Nat :=
  let p := randIndex s DICE_ROTATIONS.length
  (DICE_ROTATIONS.getD p.1 .left, p.2)

/-- The rotation loop of randomDiceOrientation, abstracted over the random
rotation source (instantiated with pickRandomRotation); the Option threads
the possibility (never realised) of CubeOrientation.roll throwing. -/
def randomDiceOrientationGoF (pick : Nat → DiceRotation × Nat) :
    Nat → Option CubeOrientation → Nat → Option CubeOrientation × Nat
  | 0, o, s => (o, s)
  | n + 1, o, s =>
    match pick s with
    | (rot, s1) =>
      randomDiceOrientationGoF pick n (o.bind (fun q => q.roll rot)) s1

/-- The rotation loop with the controller's own rotation source. -/
def randomDiceOrientationGo :
    Nat → Option CubeOrientation → Nat → Option CubeOrientation × Nat :=
  randomDiceOrientationGoF pickRandomRotation

/-- randomDiceOrientation: start from identity and roll
1 + Math.floor(seededRandom() * 3) times in random directions. -/
def randomDiceOrientation (s : Nat) : Option CubeOrientation × Nat :=
  let p := randIndex s 3
  randomDiceOrientationGo (1 + p.1) (some CubeOrientation.identity) p.2

/-- randomOrientationForTopValue: pick among ORIENTATIONS_FOR_TOP_DIGIT;
none models the "No orientations defined for top face value" throw. -/
def randomOrientationForTopValue (value : Nat) (s : Nat) :
    Option CubeOrientation × Nat :=
  let candidates := ORIENTATIONS_FOR_TOP_DIGIT value
  if candidates.isEmpty then (none, s)
  else
    let p := pickRandomElement candidates s
    (some p.1, p.2)

/-- Claim C2: for every one of the 24 legal cube orientations o and every
direction d, roll(roll(o, d), opposite(d)) equals o, where opposite pairs
left with right and up with down (INVERSE_ROTATION). -/
theorem claim_C2_roll_then_opposite_is_identity :
    ∀ o ∈ ALL_ORIENTATIONS, ∀ d : DiceRotation,
      (o.roll d).bind (fun p => p.roll (INVERSE_ROTATION d)) = some o := by
  decide

theorem claim_C2_witness :
    CubeOrientation.identity ∈ ALL_ORIENTATIONS ∧
      ((CubeOrientation.identity.roll .left).bind
        (fun p => p.roll (INVERSE_ROTATION .left))) =
        some CubeOrientation.identity :=
  ⟨by decide,
    claim_C2_roll_then_opposite_is_identity CubeOrientation.identity
      (by decide) .left⟩

/-- Claim C9: each call to the seeded generator replaces state s by
(s * 1664525 + 1013904223) mod 2^32 and returns that new state divided by
2^32, a rational in [0, 1); the sequence from a fixed seed is uniquely
determined (equal seeds give equal streams), and for seed 0xdeadbeef the
first state is the concrete 32-bit value 1789648770. -/
theorem claim_C9_seeded_generator :
    (∀ s : Nat, seededRandomState s = (s * 1664525 + 1013904223) % 2 ^ 32) ∧
    (∀ s : Nat, 0 ≤ seededRandomValue s ∧ seededRandomValue s < 1) ∧
    (∀ seed1 seed2 : Nat, seed1 = seed2 →
      ∀ n, rngStream seed1 n = rngStream seed2 n) ∧
    rngStream RANDOM_SEED 1 = 1789648770 := by
  refine ⟨fun s => rfl, fun s => ⟨?_, ?_⟩, ?_, by decide⟩
  · exact div_nonneg (by positivity) (by norm_num)
  · rw [seededRandomValue, div_lt_one (by norm_num)]
    have h : seededRandomState s < 4294967296 := Nat.mod_lt _ (by norm_num)
    exact_mod_cast h
  · intro seed1 seed2 h n
    rw [h]

theorem claim_C9_witness :
    (7 : Nat) = 7 ∧ rngStream 7 2 = rngStream 7 2 :=
  ⟨rfl, (claim_C9_seeded_generator.2.2.1 7 7 rfl) 2⟩

/-- ORIENTATION_INDEX_BY_KEY: index of an orientation in ALL_ORIENTATIONS
(the JS Map from key string to index; keys are in bijection with the
stored (x, y) pair, so the lookup is the first index with that pair). -/
def orientationIndex (o : CubeOrientation) : Option Nat :=
  ALL_ORIENTATIONS.findIdx? (fun p => p = o)

/-- One BFS expansion of ORIENTATION_ROTATION_SEQUENCES: for each direction
in DICE_ROTATIONS order, push the unvisited neighbour with the extended
sequence.  Returns (new visited key list, entries pushed in order). -/
def bfsExpand (o : CubeOrientation) (seq : List DiceRotation)
    (visited : List (Orientation × Orientation)) :
    List (Orientation × Orientation) ×
      List (CubeOrientation × List DiceRotation) :=
  DICE_ROTATIONS.foldl
    (fun acc rotation =>
      let next := rollT o rotation
      if acc.1.contains (next.x, next.y) then acc
      else ((next.x, next.y) :: acc.1, acc.2 ++ [(next, seq ++ [rotation])]))
    (visited, [])

/-- The BFS while-loop (fuel-bounded; each orientation is enqueued at most
once, so 64 iterations are more than enough for the 24-node graph).
CubeOrientation.roll never throws from a legal orientation (roll_eq_rollT),
so the expansion uses the total rollT. -/
def bfsGo : Nat → List (CubeOrientation × List DiceRotation) →
    List (Orientation × Orientation) → List (List DiceRotation) →
    List (List DiceRotation)
  | 0, _, _, seqs => seqs
  | _ + 1, [], _, seqs => seqs
  | fuel + 1, (o, seq) :: rest, visited, seqs =>
    let seqs1 :=
      match orientationIndex o with
      | some i => if (seqs.getD i []).isEmpty then seqs.set i seq else seqs
      | none => seqs
    let p := bfsExpand o seq visited
    bfsGo fuel (rest ++ p.2) p.1 seqs1

/-- ORIENTATION_ROTATION_SEQUENCES: BFS from the canonical orientation. -/
def ORIENTATION_ROTATION_SEQUENCES : List (List DiceRotation) :=
  bfsGo 64 [(CubeOrientation.identity, [])]
    [(CubeOrientation.identity.x, CubeOrientation.identity.y)]
    (List.replicate ALL_ORIENTATIONS.length [])

/-- getRotationSequence: precomputed sequence for the orientation's index
(empty for an unknown key, which cannot happen). -/
def getRotationSequence (o : CubeOrientation) : List DiceRotation :=
  match orientationIndex o with
  | none => []
  | some i => ORIENTATION_ROTATION_SEQUENCES.getD i []

/-- Applying a sequence of rolls from an orientation (left to right). -/
def applySeq (o : CubeOrientation) : List DiceRotation → CubeOrientation
  | [] => o
  | d :: ds => applySeq (rollT o d) ds

/-- Orientations reachable from canonical in at most k rolls (with
repetitions; used only to bound BFS distances). -/
def reach : Nat → List CubeOrientation
  | 0 => [CubeOrientation.identity]
  | k + 1 => reach k ++ (reach k).flatMap (fun o => DICE_ROTATIONS.map (rollT o))

theorem applySeq_mem_reach :
    ∀ (l : List DiceRotation) (k : Nat) (o : CubeOrientation),
      o ∈ reach k → applySeq o l ∈ reach (k + l.length) := by
  intro l
  induction l with
  | nil => intro k o h; simpa using h
  | cons d ds ih =>
    intro k o h
    have hstep : rollT o d ∈ reach (k + 1) := by
      refine List.mem_append_right _ ?_
      refine List.mem_flatMap.2 ⟨o, h, ?_⟩
      exact List.mem_map.2 ⟨d, by cases d <;> decide, rfl⟩
    have := ih (k + 1) (rollT o d) hstep
    simpa [applySeq, Nat.add_assoc, Nat.add_comm 1 ds.length] using this

set_option maxRecDepth 100000 in
theorem rotation_sequences_table_facts :
    ∀ o ∈ ALL_ORIENTATIONS,
      applySeq CubeOrientation.identity (getRotationSequence o) = o ∧
      (getRotationSequence o).length ≤ 4 ∧
      (o = CubeOrientation.identity → getRotationSequence o = []) ∧
      (∀ k, k < (getRotationSequence o).length → o ∉ reach k) := by
  decide

/-- Counterexample to claim C8 as stated: the orientation (WEST, SOUTH) --
the 180-degree yaw of the canonical orientation -- has a rotation sequence
of length 4, exceeding the claimed bound of 3. -/
theorem claim_C8_counterexample :
    3 < (getRotationSequence ⟨.WEST, .SOUTH, by decide⟩).length := by
  decide

/-- Claim C8 (amended): for each of the 24 orientations o,
getRotationSequence o is a direction sequence that reaches o from the
canonical orientation by successive rolls; it is empty when o is canonical,
no strictly shorter direction sequence reaches o (minimality), and its
length is at most 4 (the true diameter of the 24-node roll graph, attained
at (WEST, SOUTH); the claimed bound of 3 fails there). -/
theorem claim_C8_rotation_sequences :
    ∀ o ∈ ALL_ORIENTATIONS,
      applySeq CubeOrientation.identity (getRotationSequence o) = o ∧
      (o = CubeOrientation.identity → getRotationSequence o = []) ∧
      (getRotationSequence o).length ≤ 4 ∧
      (∀ l : List DiceRotation, applySeq CubeOrientation.identity l = o →
        (getRotationSequence o).length ≤ l.length) := by
  intro o ho
  obtain ⟨h1, h2, h3, h4⟩ := rotation_sequences_table_facts o ho
  refine ⟨h1, h3, h2, ?_⟩
  intro l hl
  by_contra hlt
  push_neg at hlt
  have hmem : o ∈ reach l.length := by
    have := applySeq_mem_reach l 0 CubeOrientation.identity (by simp [reach])
    rwa [hl, Nat.zero_add] at this
  exact h4 l.length hlt hmem

theorem claim_C8_witness :
    CubeOrientation.identity ∈ ALL_ORIENTATIONS ∧
      getRotationSequence CubeOrientation.identity = [] := by
  have h := claim_C8_rotation_sequences CubeOrientation.identity (by decide)
  exact ⟨by decide, h.2.1 rfl⟩

/-- RollingState (src/src/types.ts). -/
structure RollingState where
  cellIndex : Nat
  targetCellIndex : Nat
  rotation : DiceRotation
  startTime : Nat
deriving DecidableEq, Repr

/-- PendingRollback (src/src/diceController.ts). -/
structure PendingRollback where
  sourceCellIndex : Nat
  targetCellIndex : Nat
  rotation : DiceRotation
deriving DecidableEq, Repr

/-- The mutable state of class DiceController.  `performance.now()` values
are injected as explicit arguments of the operations. -/
structure DiceController where
  gridSize : Nat
  totalCells : Nat
  rngState : Nat
  diceCellsMask : List Bool
  diceOrientations : List CubeOrientation
  rollingState : Option RollingState
  pendingRollback : Option PendingRollback
  invalidHighlightCell : Option Nat
  invalidHighlightExpiry : Nat
deriving DecidableEq

/-- INVALID_HIGHLIGHT_DURATION_MS = 600. -/
def INVALID_HIGHLIGHT_DURATION_MS : Nat := 600

/-- getTargetCellIndex: adjacent cell in the rolled direction, with bounds
check; row/col arithmetic is over Int so the -1 underflow is faithful. -/
def getTargetCellIndex (gridSize cellIndex : Nat) (rotation : DiceRotation) :
    Option Nat :=
  let row : Int := (cellIndex / gridSize : Nat)
  let col : Int := (cellIndex % gridSize : Nat)
  let targetRow : Int :=
    row + (match rotation with | .up => -1 | .down => 1 | _ => 0)
  let targetCol : Int :=
    col + (match rotation with | .left => -1 | .right => 1 | _ => 0)
  if targetRow < 0 ∨ (gridSize : Int) ≤ targetRow ∨
      targetCol < 0 ∨ (gridSize : Int) ≤ targetCol then
    none
  else
    some (targetRow * gridSize + targetCol).toNat

/-- startRollingAnimation(cellIndex, rotation): rejects an unoccupied
source, a pending rollback, and a missing or occupied target; otherwise
installs a fresh RollingState stamped with the current time.  (It does not
look at the current rollingState.) -/
def startRollingAnimation (c : DiceController) (now : Nat)
    (cellIndex : Nat) (rotation : DiceRotation) : DiceController :=
  if c.diceCellsMask.getD cellIndex false = false then c
  else if c.pendingRollback.isSome then c
  else
    match getTargetCellIndex c.gridSize cellIndex rotation with
    | none => c
    | some targetCellIndex =>
      if c.diceCellsMask.getD targetCellIndex false then c
      else
        { c with rollingState := some (RollingState.mk cellIndex targetCellIndex rotation now) }

/-- getTopFaceValue(cellIndex): outer none models a thrown classification
error (never reached, see getTopFaceValueFromOrientation_isSome); inner
none is the null returned for an unoccupied cell. -/
def getTopFaceValue (c : DiceController) (cellIndex : Nat) :
    Option (Option Nat) :=
  if c.diceCellsMask.getD cellIndex false = false then some none
  else
    (getTopFaceValueFromOrientation
      (c.diceOrientations.getD cellIndex CubeOrientation.identity)).map some

theorem getTopFaceValueFromOrientation_isSome (o : CubeOrientation) :
    (getTopFaceValueFromOrientation o).isSome = true := by
  have h : ∀ p ∈ ALL_ORIENTATIONS,
      (getTopFaceValueFromOrientation p).isSome = true := by decide
  exact h o (mem_ALL_ORIENTATIONS o)

/-- The scan loop of isLatinSquareValid: index counts up, `remaining` many
cells left to scan; rowSets/colSets collect the digits seen per row and
column.  A cell whose top face cannot be classified would make the TS
version throw; that branch is unreachable
(getTopFaceValueFromOrientation_isSome) and is modelled as a skip, like the
explicit `value === null` skip. -/
def latinCheckAux (c : DiceController) :
    Nat → Nat → List (List Nat) → List (List Nat) → Bool
  | _, 0, _, _ => true
  | index, remaining + 1, rowSets, colSets =>
    if c.diceCellsMask.getD index false = false then
      latinCheckAux c (index + 1) remaining rowSets colSets
    else
      match getTopFaceValue c index with
      | some none => latinCheckAux c (index + 1) remaining rowSets colSets
      | none => latinCheckAux c (index + 1) remaining rowSets colSets
      | some (some value) =>
        let row := index / c.gridSize
        let col := index % c.gridSize
        if (rowSets.getD row []).contains value ∨
            (colSets.getD col []).contains value then false
        else
          latinCheckAux c (index + 1) remaining
            (rowSets.set row (value :: rowSets.getD row []))
            (colSets.set col (value :: colSets.getD col []))

/-- isLatinSquareValid: row/column digit uniqueness over occupied cells. -/
def isLatinSquareValid (c : DiceController) : Bool :=
  latinCheckAux c 0 c.totalCells
    (List.replicate c.gridSize []) (List.replicate c.gridSize [])

/-- handleInvalidMove: highlight the landing cell for 600 ms and record the
inverse move as the pending rollback. -/
def handleInvalidMove (c : DiceController) (now : Nat)
    (cellIndex targetCellIndex : Nat) (rotation : DiceRotation) :
    DiceController :=
  { c with
    invalidHighlightCell := some targetCellIndex,
    invalidHighlightExpiry := now + INVALID_HIGHLIGHT_DURATION_MS,
    pendingRollback :=
      some ⟨targetCellIndex, cellIndex, INVERSE_ROTATION rotation⟩ }

/-- finalizeRollingAnimation: roll the source orientation onto the target,
move the occupancy, clear the rolling state; then re-validate and, on a
violation, schedule the rollback (without reverting the move). -/
def finalizeRollingAnimation (c : DiceController) (now : Nat) :
    DiceController :=
  match c.rollingState with
  | none => c
  | some rs =>
    let c1 : DiceController :=
      { c with
        diceOrientations :=
          c.diceOrientations.set rs.targetCellIndex
            (rollT (c.diceOrientations.getD rs.cellIndex
              CubeOrientation.identity) rs.rotation),
        diceCellsMask :=
          (c.diceCellsMask.set rs.cellIndex false).set
            rs.targetCellIndex true,
        rollingState := none }
    if isLatinSquareValid c1 then c1
    else handleInvalidMove c1 now rs.cellIndex rs.targetCellIndex rs.rotation

/-- processFrame: when a rollback is pending, its highlight has expired and
no roll is in flight, clear the rollback and highlight and start the stored
inverse move. -/
def processFrame (c : DiceController) (now : Nat) : DiceController :=
  match c.pendingRollback with
  | none => c
  | some rollback =>
    if c.invalidHighlightExpiry ≤ now ∧ c.rollingState = none then
      startRollingAnimation
        { c with pendingRollback := none, invalidHighlightCell := none }
        now rollback.sourceCellIndex rollback.rotation
    else c

theorem getD_set_self {α : Type} (l : List α) (i : Nat) (a d : α)
    (h : i < l.length) : (l.set i a).getD i d = a := by
  simp [List.getD_eq_getElem?_getD, List.getElem?_set_self, h]

theorem getD_set_ne {α : Type} (l : List α) (i j : Nat) (a d : α)
    (h : i ≠ j) : (l.set i a).getD j d = l.getD j d := by
  simp [List.getD_eq_getElem?_getD, List.getElem?_set_ne h]

/-- A demonstration state: 2x2 board, a die on cell 0, a roll 0 → 1 in
flight, no rollback pending. -/
def rollingDemoController : DiceController :=
  { gridSize := 2, totalCells := 4, rngState := 0,
    diceCellsMask := [true, false, false, false],
    diceOrientations := List.replicate 4 CubeOrientation.identity,
    rollingState := some ⟨0, 1, .right, 0⟩,
    pendingRollback := none,
    invalidHighlightCell := none,
    invalidHighlightExpiry := 0 }

/-- Counterexample to claim C1 as stated: with a Rolling State already in
flight (rollingDemoController), startRollingAnimation(0, right) at time 5
is not a no-op -- it replaces the rolling state (new start time), because
the method never inspects rollingState. -/
theorem claim_C1_counterexample :
    startRollingAnimation rollingDemoController 5 0 .right ≠
      rollingDemoController := by
  decide

/-- Claim C1 (amended): startRollingAnimation never changes the occupancy
mask, orientations, pending rollback, or highlight; but it does not check
whether a Rolling State already exists, so with one in flight it can
replace the rolling state.  It is a no-op exactly under its own rejection
conditions: unoccupied source, pending rollback, or missing/occupied
target. -/
theorem claim_C1_start_rolling_animation :
    ∀ (c : DiceController) (now cellIndex : Nat) (rotation : DiceRotation),
      ((startRollingAnimation c now cellIndex rotation).diceCellsMask =
          c.diceCellsMask ∧
        (startRollingAnimation c now cellIndex rotation).diceOrientations =
          c.diceOrientations ∧
        (startRollingAnimation c now cellIndex rotation).pendingRollback =
          c.pendingRollback ∧
        (startRollingAnimation c now cellIndex rotation).invalidHighlightCell =
          c.invalidHighlightCell ∧
        (startRollingAnimation c now cellIndex rotation).invalidHighlightExpiry =
          c.invalidHighlightExpiry) ∧
      ((c.diceCellsMask.getD cellIndex false = false ∨
          c.pendingRollback.isSome = true ∨
          getTargetCellIndex c.gridSize cellIndex rotation = none ∨
          (∃ t, getTargetCellIndex c.gridSize cellIndex rotation = some t ∧
            c.diceCellsMask.getD t false = true)) →
        startRollingAnimation c now cellIndex rotation = c) := by
  intro c now cellIndex rotation
  constructor
  · unfold startRollingAnimation
    split
    · exact ⟨rfl, rfl, rfl, rfl, rfl⟩
    · split
      · exact ⟨rfl, rfl, rfl, rfl, rfl⟩
      · split
        · exact ⟨rfl, rfl, rfl, rfl, rfl⟩
        · split
          · exact ⟨rfl, rfl, rfl, rfl, rfl⟩
          · exact ⟨rfl, rfl, rfl, rfl, rfl⟩
  · intro h
    unfold startRollingAnimation
    split
    · rfl
    · rename_i h1
      split
      · rfl
      · rename_i h2
        split
        · rfl
        · rename_i t1 ht1
          split
          · rfl
          · rename_i h3
            exfalso
            rcases h with h | h | h | ⟨t, ht, hocc⟩
            · exact h1 h
            · exact h2 h
            · rw [ht1] at h; cases h
            · rw [ht1] at ht
              cases ht
              exact h3 hocc

theorem claim_C1_witness :
    ((rollingDemoController.diceCellsMask.getD 1 false = false ∨
        rollingDemoController.pendingRollback.isSome = true ∨
        getTargetCellIndex rollingDemoController.gridSize 1 .right = none ∨
        (∃ t, getTargetCellIndex rollingDemoController.gridSize 1 .right =
            some t ∧
          rollingDemoController.diceCellsMask.getD t false = true))) ∧
      startRollingAnimation rollingDemoController 5 1 .right =
        rollingDemoController :=
  ⟨Or.inl (by decide),
    (claim_C1_start_rolling_animation rollingDemoController 5 1 .right).2
      (Or.inl (by decide))⟩

theorem randomDiceOrientationGoF_isSome :
    ∀ (pick : Nat → DiceRotation × Nat) (n : Nat)
      (o : Option CubeOrientation) (s : Nat),
      o.isSome = true → (randomDiceOrientationGoF pick n o s).1.isSome = true := by
  intro pick n
  induction n with
  | zero => intro o s h; exact h
  | succ m ih =>
    intro o s h
    obtain ⟨q, rfl⟩ := Option.isSome_iff_exists.1 h
    obtain ⟨rot, s1, hp⟩ : ∃ rot s1, pick s = (rot, s1) :=
      ⟨(pick s).1, (pick s).2, rfl⟩
    simp only [randomDiceOrientationGoF, hp]
    refine ih _ _ ?_
    rw [Option.some_bind, roll_eq_rollT]
    rfl

theorem randomDiceOrientationGo_isSome :
    ∀ (n : Nat) (o : Option CubeOrientation) (s : Nat),
      o.isSome = true → (randomDiceOrientationGo n o s).1.isSome = true :=
  fun n o s h => randomDiceOrientationGoF_isSome pickRandomRotation n o s h

theorem top_digit_candidates_nonempty :
    ∀ digit ∈ DICE_DIGITS,
      (ORIENTATIONS_FOR_TOP_DIGIT digit).isEmpty = false := by decide

/-- Claim C6: the CubeOrientation constructor succeeds exactly on the 24
pairs of the table; every CubeOrientation value is one of the 24; roll from
a legal orientation never reaches the constructor error; the initial random
orientations and the digit-to-orientation conversion of setDiceMaskFromGrid
never reach an error either. -/
theorem claim_C6_orientation_invariant :
    (∀ x y : Orientation,
      (mkCubeOrientation x y).isSome = true ↔
        (x, y) ∈ XY_ORIENTATIONS.map (fun t => (t.1, t.2.1))) ∧
    (∀ o : CubeOrientation, o ∈ ALL_ORIENTATIONS) ∧
    (∀ (o : CubeOrientation) (d : DiceRotation), o.roll d = some (rollT o d)) ∧
    (∀ s : Nat, (randomDiceOrientation s).1.isSome = true) ∧
    (∀ digit, digit ∈ DICE_DIGITS → ∀ s : Nat,
      (randomOrientationForTopValue digit s).1.isSome = true) := by
  refine ⟨by decide, mem_ALL_ORIENTATIONS, roll_eq_rollT, ?_, ?_⟩
  · intro s
    unfold randomDiceOrientation
    exact randomDiceOrientationGo_isSome _ _ _ rfl
  · intro digit hdigit s
    simp [randomOrientationForTopValue,
      top_digit_candidates_nonempty digit hdigit]

theorem claim_C6_witness :
    (1 ∈ DICE_DIGITS) ∧
      (randomOrientationForTopValue 1 0).1.isSome = true :=
  ⟨by decide, claim_C6_orientation_invariant.2.2.2.2 1 (by decide) 0⟩

theorem top_face_table_facts :
    ∀ o ∈ ALL_ORIENTATIONS,
      DICE_DIGITS.countP
        (fun digit => DIGIT_ORIENTATION_PREDICATES digit o) = 1 ∧
      (getTopFaceValueFromOrientation o).isSome = true ∧
      (getTopFaceValueFromOrientation o).getD 0 ∈ DICE_DIGITS := by decide

/-- Claim C7: for each of the 24 legal orientations exactly one of the six
digit predicates holds, so getTopFaceValueFromOrientation always yields a
digit in 1..6 and its error branch is unreachable; and getTopFaceValue of a
cell yields the null marker exactly when the cell is unoccupied, never an
error. -/
theorem claim_C7_top_face_total :
    (∀ o : CubeOrientation,
      DICE_DIGITS.countP
        (fun digit => DIGIT_ORIENTATION_PREDICATES digit o) = 1 ∧
      ∃ v, getTopFaceValueFromOrientation o = some v ∧ v ∈ DICE_DIGITS) ∧
    (∀ (c : DiceController) (cellIndex : Nat),
      getTopFaceValue c cellIndex ≠ none ∧
      (getTopFaceValue c cellIndex = some none ↔
        c.diceCellsMask.getD cellIndex false = false)) := by
  constructor
  · intro o
    obtain ⟨h1, h2, h3⟩ := top_face_table_facts o (mem_ALL_ORIENTATIONS o)
    obtain ⟨v, hv⟩ := Option.isSome_iff_exists.1 h2
    refine ⟨h1, v, hv, ?_⟩
    rw [hv] at h3
    exact h3
  · intro c cellIndex
    unfold getTopFaceValue
    split
    · exact ⟨by simp, by simp_all⟩
    · rename_i hmask
      obtain ⟨v, hv⟩ := Option.isSome_iff_exists.1
        (getTopFaceValueFromOrientation_isSome
          (c.diceOrientations.getD cellIndex CubeOrientation.identity))
      rw [hv]
      refine ⟨by simp, ?_⟩
      constructor
      · intro h
        cases h
      · intro h
        exact absurd h hmask

/-- The state finalizeRollingAnimation builds before re-validating: target
orientation rolled from the source, source occupancy cleared, target
occupancy set, rolling state cleared. -/
def finalizeMidState (c : DiceController) (rs : RollingState) :
    DiceController :=
  { c with
    diceOrientations :=
      c.diceOrientations.set rs.targetCellIndex
        (rollT (c.diceOrientations.getD rs.cellIndex
          CubeOrientation.identity) rs.rotation),
    diceCellsMask :=
      (c.diceCellsMask.set rs.cellIndex false).set rs.targetCellIndex true,
    rollingState := none }

theorem finalize_eq (c : DiceController) (now : Nat) (rs : RollingState)
    (h : c.rollingState = some rs) :
    finalizeRollingAnimation c now =
      (if isLatinSquareValid (finalizeMidState c rs) then finalizeMidState c rs
       else handleInvalidMove (finalizeMidState c rs) now
         rs.cellIndex rs.targetCellIndex rs.rotation) := by
  simp only [finalizeRollingAnimation, h, finalizeMidState]

/-- Claim C4: with a Rolling State (source, target, direction) in place,
finalizeRollingAnimation sets the target orientation to
roll(orientation[source], direction), clears source occupancy, sets target
occupancy and clears the Rolling State; when the resulting board fails the
Latin-square check it also highlights the target with expiry now + 600 ms
and records the inverse move (target→source, opposite direction) as the
pending rollback, without reverting the occupancy or orientation changes. -/
theorem claim_C4_finalize_rolling_animation :
    ∀ (c : DiceController) (now : Nat) (rs : RollingState),
      c.rollingState = some rs →
      rs.cellIndex ≠ rs.targetCellIndex →
      rs.cellIndex < c.diceCellsMask.length →
      rs.targetCellIndex < c.diceCellsMask.length →
      rs.targetCellIndex < c.diceOrientations.length →
      ((finalizeRollingAnimation c now).diceOrientations =
          c.diceOrientations.set rs.targetCellIndex
            (rollT (c.diceOrientations.getD rs.cellIndex
              CubeOrientation.identity) rs.rotation) ∧
        (finalizeRollingAnimation c now).diceOrientations.getD
            rs.targetCellIndex CubeOrientation.identity =
          rollT (c.diceOrientations.getD rs.cellIndex
            CubeOrientation.identity) rs.rotation ∧
        (finalizeRollingAnimation c now).diceCellsMask =
          (c.diceCellsMask.set rs.cellIndex false).set
            rs.targetCellIndex true ∧
        (finalizeRollingAnimation c now).diceCellsMask.getD
          rs.cellIndex false = false ∧
        (finalizeRollingAnimation c now).diceCellsMask.getD
          rs.targetCellIndex false = true ∧
        (finalizeRollingAnimation c now).rollingState = none) ∧
      (isLatinSquareValid (finalizeMidState c rs) = false →
        (finalizeRollingAnimation c now).invalidHighlightCell =
            some rs.targetCellIndex ∧
          (finalizeRollingAnimation c now).invalidHighlightExpiry =
            now + 600 ∧
          (finalizeRollingAnimation c now).pendingRollback =
            some ⟨rs.targetCellIndex, rs.cellIndex,
              INVERSE_ROTATION rs.rotation⟩) := by
  intro c now rs h hne hsrc htgt htgt2
  rw [finalize_eq c now rs h]
  by_cases hv : isLatinSquareValid (finalizeMidState c rs) = true
  · rw [if_pos hv]
    refine ⟨⟨rfl, ?_, rfl, ?_, ?_, rfl⟩, ?_⟩
    · exact getD_set_self _ _ _ _ htgt2
    · show ((c.diceCellsMask.set rs.cellIndex false).set
        rs.targetCellIndex true).getD rs.cellIndex false = false
      rw [getD_set_ne _ _ _ _ _ (Ne.symm hne),
        getD_set_self _ _ _ _ hsrc]
    · show ((c.diceCellsMask.set rs.cellIndex false).set
        rs.targetCellIndex true).getD rs.targetCellIndex false = true
      rw [getD_set_self]
      rw [List.length_set]
      exact htgt
    · intro hcontra
      rw [hv] at hcontra
      cases hcontra
  · rw [if_neg hv]
    refine ⟨⟨rfl, ?_, rfl, ?_, ?_, rfl⟩, ?_⟩
    · exact getD_set_self _ _ _ _ htgt2
    · show ((c.diceCellsMask.set rs.cellIndex false).set
        rs.targetCellIndex true).getD rs.cellIndex false = false
      rw [getD_set_ne _ _ _ _ _ (Ne.symm hne),
        getD_set_self _ _ _ _ hsrc]
    · show ((c.diceCellsMask.set rs.cellIndex false).set
        rs.targetCellIndex true).getD rs.targetCellIndex false = true
      rw [getD_set_self]
      rw [List.length_set]
      exact htgt
    · intro _
      exact ⟨rfl, rfl, rfl⟩

theorem claim_C4_witness :
    rollingDemoController.rollingState =
        some ⟨0, 1, DiceRotation.right, 0⟩ ∧
      (finalizeRollingAnimation rollingDemoController 9).rollingState =
        none :=
  ⟨by decide,
    ((claim_C4_finalize_rolling_animation rollingDemoController 9
      ⟨0, 1, .right, 0⟩ (by decide) (by decide) (by decide) (by decide)
      (by decide)).1).2.2.2.2.2⟩

/-- Claim C10: finalizeRollingAnimation touches occupancy and orientation
only at the source and target cells; every other index keeps its occupancy
flag and stored orientation, and both array lengths are unchanged. -/
theorem claim_C10_finalize_frame :
    ∀ (c : DiceController) (now : Nat) (rs : RollingState),
      c.rollingState = some rs →
      rs.cellIndex < c.diceCellsMask.length →
      rs.targetCellIndex < c.diceCellsMask.length →
      rs.targetCellIndex < c.diceOrientations.length →
      (finalizeRollingAnimation c now).diceCellsMask.length =
          c.diceCellsMask.length ∧
        (finalizeRollingAnimation c now).diceOrientations.length =
          c.diceOrientations.length ∧
        ∀ i, i ≠ rs.cellIndex → i ≠ rs.targetCellIndex →
          (finalizeRollingAnimation c now).diceCellsMask.getD i false =
              c.diceCellsMask.getD i false ∧
            (finalizeRollingAnimation c now).diceOrientations.getD i
                CubeOrientation.identity =
              c.diceOrientations.getD i CubeOrientation.identity := by
  intro c now rs h _ _ _
  rw [finalize_eq c now rs h]
  have hframe : ∀ (d : DiceController),
      d.diceCellsMask = (finalizeMidState c rs).diceCellsMask →
      d.diceOrientations = (finalizeMidState c rs).diceOrientations →
      d.diceCellsMask.length = c.diceCellsMask.length ∧
        d.diceOrientations.length = c.diceOrientations.length ∧
        ∀ i, i ≠ rs.cellIndex → i ≠ rs.targetCellIndex →
          d.diceCellsMask.getD i false = c.diceCellsMask.getD i false ∧
            d.diceOrientations.getD i CubeOrientation.identity =
              c.diceOrientations.getD i CubeOrientation.identity := by
    intro d hd1 hd2
    rw [hd1, hd2]
    refine ⟨by simp [finalizeMidState], by simp [finalizeMidState], ?_⟩
    intro i hi1 hi2
    constructor
    · show ((c.diceCellsMask.set rs.cellIndex false).set
        rs.targetCellIndex true).getD i false = _
      rw [getD_set_ne _ _ _ _ _ (Ne.symm hi2),
        getD_set_ne _ _ _ _ _ (Ne.symm hi1)]
    · show (c.diceOrientations.set rs.targetCellIndex _).getD i _ = _
      rw [getD_set_ne _ _ _ _ _ (Ne.symm hi2)]
  by_cases hv : isLatinSquareValid (finalizeMidState c rs) = true
  · rw [if_pos hv]
    exact hframe _ rfl rfl
  · rw [if_neg hv]
    exact hframe _ rfl rfl

theorem claim_C10_witness :
    rollingDemoController.rollingState =
        some ⟨0, 1, DiceRotation.right, 0⟩ ∧
      (finalizeRollingAnimation rollingDemoController 9).diceCellsMask.length =
        rollingDemoController.diceCellsMask.length :=
  ⟨by decide,
    (claim_C10_finalize_frame rollingDemoController 9 ⟨0, 1, .right, 0⟩
      (by decide) (by decide) (by decide) (by decide)).1⟩

theorem getTargetCellIndex_inverse :
    ∀ (g a b : Nat) (d : DiceRotation), a < g * g →
      getTargetCellIndex g a d = some b →
      getTargetCellIndex g b (INVERSE_ROTATION d) = some a ∧
        b < g * g ∧ a ≠ b := by
  intro g a b d ha h
  have hg : 0 < g := by
    rcases Nat.eq_zero_or_pos g with h0 | h0
    · subst h0; simp at ha
    · exact h0
  have hr : a / g < g := (Nat.div_lt_iff_lt_mul hg).mpr ha
  have hc : a % g < g := Nat.mod_lt _ hg
  have had : a / g * g + a % g = a := by
    rw [Nat.mul_comm]
    exact Nat.div_add_mod a g
  cases d
  case right =>
    simp only [getTargetCellIndex, INVERSE_ROTATION] at h ⊢
    split at h
    · cases h
    · rename_i hcond
      push_neg at hcond
      obtain ⟨h1, h2, h3, h4⟩ := hcond
      obtain ⟨q, hq⟩ : ∃ q, a / g = q := ⟨_, rfl⟩
      obtain ⟨r, hr2⟩ : ∃ r, a % g = r := ⟨_, rfl⟩
      rw [hq] at h had hr h1 h2
      rw [hr2] at h had hc h3 h4
      have hlt : r + 1 < g := by exact_mod_cast h4
      have hinj := Option.some.inj h
      ring_nf at hinj
      have hb1 : b = q * g + (r + 1) := by omega
      have hbg : b / g = q := by
        rw [hb1, Nat.mul_comm, Nat.mul_add_div hg]
        simp [Nat.div_eq_of_lt hlt]
      have hbm : b % g = r + 1 := by
        rw [hb1, Nat.mul_comm, Nat.mul_add_mod]
        simp [Nat.mod_eq_of_lt hlt]
      refine ⟨?_, ?_, by omega⟩
      · rw [hbg, hbm]
        rw [if_neg (by omega)]
        congr 1
        ring_nf
        omega
      · obtain ⟨g1, rfl⟩ : ∃ g1, g = g1 + 1 := ⟨g - 1, by omega⟩
        have hmul : q * (g1 + 1) ≤ g1 * (g1 + 1) :=
          Nat.mul_le_mul_right (g1 + 1) (by omega)
        have hx : (g1 + 1) * (g1 + 1) = g1 * (g1 + 1) + (g1 + 1) := by ring
        omega
  case left =>
    simp only [getTargetCellIndex, INVERSE_ROTATION] at h ⊢
    split at h
    · cases h
    · rename_i hcond
      push_neg at hcond
      obtain ⟨h1, h2, h3, h4⟩ := hcond
      obtain ⟨q, hq⟩ : ∃ q, a / g = q := ⟨_, rfl⟩
      obtain ⟨r, hr2⟩ : ∃ r, a % g = r := ⟨_, rfl⟩
      rw [hq] at h had hr h1 h2
      rw [hr2] at h had hc h3 h4
      have hge : 1 ≤ r := by
        have h3' : (0 : Int) ≤ (r : Int) + -1 := h3
        omega
      have hinj := Option.some.inj h
      ring_nf at hinj
      have hb1 : b = q * g + (r - 1) := by omega
      have hlt2 : r - 1 < g := by omega
      have hbg : b / g = q := by
        rw [hb1, Nat.mul_comm, Nat.mul_add_div hg]
        simp [Nat.div_eq_of_lt hlt2]
      have hbm : b % g = r - 1 := by
        rw [hb1, Nat.mul_comm, Nat.mul_add_mod]
        simp [Nat.mod_eq_of_lt hlt2]
      refine ⟨?_, by omega, by omega⟩
      rw [hbg, hbm]
      rw [if_neg (by omega)]
      congr 1
      ring_nf
      omega
  case up =>
    simp only [getTargetCellIndex, INVERSE_ROTATION] at h ⊢
    split at h
    · cases h
    · rename_i hcond
      push_neg at hcond
      obtain ⟨h1, h2, h3, h4⟩ := hcond
      obtain ⟨q, hq⟩ : ∃ q, a / g = q := ⟨_, rfl⟩
      obtain ⟨r, hr2⟩ : ∃ r, a % g = r := ⟨_, rfl⟩
      rw [hq] at h had hr h1 h2
      rw [hr2] at h had hc h3 h4
      have hge : 1 ≤ q := by
        have h1' : (0 : Int) ≤ (q : Int) + -1 := h1
        omega
      have hgle : g ≤ q * g := by
        calc g = 1 * g := (Nat.one_mul g).symm
        _ ≤ q * g := Nat.mul_le_mul_right g hge
      have hinj := Option.some.inj h
      ring_nf at hinj
      have hbLin : b + g = a := by omega
      have hb1 : b = (q - 1) * g + r := by
        rw [Nat.sub_mul, Nat.one_mul]
        omega
      have hbg : b / g = q - 1 := by
        rw [hb1, Nat.mul_comm, Nat.mul_add_div hg]
        simp [Nat.div_eq_of_lt hc]
      have hbm : b % g = r := by
        rw [hb1, Nat.mul_comm, Nat.mul_add_mod]
        simp [Nat.mod_eq_of_lt hc]
      have hsub2 : (q - 1) * g + g = q * g := by
        rw [Nat.sub_mul, Nat.one_mul]
        omega
      refine ⟨?_, by omega, by omega⟩
      rw [hbg, hbm]
      rw [if_neg (by omega)]
      congr 1
      ring_nf
      omega
  case down =>
    simp only [getTargetCellIndex, INVERSE_ROTATION] at h ⊢
    split at h
    · cases h
    · rename_i hcond
      push_neg at hcond
      obtain ⟨h1, h2, h3, h4⟩ := hcond
      obtain ⟨q, hq⟩ : ∃ q, a / g = q := ⟨_, rfl⟩
      obtain ⟨r, hr2⟩ : ∃ r, a % g = r := ⟨_, rfl⟩
      rw [hq] at h had hr h1 h2
      rw [hr2] at h had hc h3 h4
      have hlt : q + 1 < g := by exact_mod_cast h2
      have hexp : (q + 1) * g = q * g + g := by
        rw [Nat.add_mul, Nat.one_mul]
      have hinj := Option.some.inj h
      ring_nf at hinj
      have hbLin : b = a + g := by omega
      have hb1 : b = (q + 1) * g + r := by
        rw [hexp]
        omega
      have hbg : b / g = q + 1 := by
        rw [hb1, Nat.mul_comm, Nat.mul_add_div hg]
        simp [Nat.div_eq_of_lt hc]
      have hbm : b % g = r := by
        rw [hb1, Nat.mul_comm, Nat.mul_add_mod]
        simp [Nat.mod_eq_of_lt hc]
      refine ⟨?_, ?_, by omega⟩
      · rw [hbg, hbm]
        rw [if_neg (by omega)]
        congr 1
        push_cast
        ring_nf
        omega
      · obtain ⟨g2, rfl⟩ : ∃ g2, g = g2 + 2 := ⟨g - 2, by omega⟩
        have hmul : q * (g2 + 2) ≤ g2 * (g2 + 2) :=
          Nat.mul_le_mul_right (g2 + 2) (by omega)
        have hx : (g2 + 2) * (g2 + 2) = g2 * (g2 + 2) + 2 * (g2 + 2) := by
          ring
        omega

theorem set_getD_self {α : Type} (l : List α) (n : Nat) (d : α)
    (h : n < l.length) : l.set n (l.getD n d) = l := by
  apply List.ext_getElem?
  intro i
  by_cases hi : i = n
  · subst hi
    rw [List.getElem?_set_eq_of_lt _ h, List.getD_eq_getElem l d h,
      List.getElem?_eq_getElem h]
  · rw [List.getElem?_set_ne (Ne.symm hi)]

/-- The Latin-square scan only reads gridSize, the occupancy mask and the
orientations of occupied cells. -/
theorem latinCheckAux_congr (c c2 : DiceController)
    (hg : c2.gridSize = c.gridSize)
    (hm : c2.diceCellsMask = c.diceCellsMask)
    (ho : ∀ i, c.diceCellsMask.getD i false = true →
      c2.diceOrientations.getD i CubeOrientation.identity =
        c.diceOrientations.getD i CubeOrientation.identity) :
    ∀ (remaining index : Nat) (rowSets colSets : List (List Nat)),
      latinCheckAux c2 index remaining rowSets colSets =
        latinCheckAux c index remaining rowSets colSets := by
  intro remaining
  induction remaining with
  | zero => intro index rs cs; rfl
  | succ rem ih =>
    intro index rs cs
    have htop : getTopFaceValue c2 index = getTopFaceValue c index := by
      unfold getTopFaceValue
      rw [hm]
      by_cases hmask : c.diceCellsMask.getD index false = false
      · rw [if_pos hmask, if_pos hmask]
      · rw [if_neg hmask, if_neg hmask,
          ho index (by
            cases hB : c.diceCellsMask.getD index false
            · exact absurd hB hmask
            · rfl)]
    simp only [latinCheckAux, hm, hg, htop]
    by_cases hmask : c.diceCellsMask.getD index false = false
    · rw [if_pos hmask, if_pos hmask, ih]
    · rw [if_neg hmask, if_neg hmask]
      cases hval : getTopFaceValue c index with
      | none => rw [ih]
      | some vo =>
        cases vo with
        | none => rw [ih]
        | some v =>
          dsimp only
          split
          · rfl
          · rw [ih]

theorem isLatinSquareValid_congr (c c2 : DiceController)
    (hg : c2.gridSize = c.gridSize) (ht : c2.totalCells = c.totalCells)
    (hm : c2.diceCellsMask = c.diceCellsMask)
    (ho : ∀ i, c.diceCellsMask.getD i false = true →
      c2.diceOrientations.getD i CubeOrientation.identity =
        c.diceOrientations.getD i CubeOrientation.identity) :
    isLatinSquareValid c2 = isLatinSquareValid c := by
  unfold isLatinSquareValid
  rw [hg, ht]
  exact latinCheckAux_congr c c2 hg hm ho _ _ _ _

theorem processFrame_eq (c : DiceController) (now : Nat)
    (rb : PendingRollback) (h : c.pendingRollback = some rb)
    (hexp : c.invalidHighlightExpiry ≤ now) (hrs : c.rollingState = none) :
    processFrame c now = startRollingAnimation
      { c with pendingRollback := none, invalidHighlightCell := none }
      now rb.sourceCellIndex rb.rotation := by
  simp only [processFrame, h]
  rw [if_pos ⟨hexp, hrs⟩]

theorem startRollingAnimation_eq (c : DiceController) (now cell : Nat)
    (dir : DiceRotation) (t : Nat)
    (hm : c.diceCellsMask.getD cell false = true)
    (hp : c.pendingRollback = none)
    (ht : getTargetCellIndex c.gridSize cell dir = some t)
    (ho : c.diceCellsMask.getD t false = false) :
    startRollingAnimation c now cell dir =
      { c with rollingState := some ⟨cell, t, dir, now⟩ } := by
  unfold startRollingAnimation
  rw [if_neg (by rw [hm]; simp)]
  rw [if_neg (by rw [hp]; simp)]
  rw [ht]
  dsimp only
  rw [if_neg (by rw [ho]; simp)]

theorem getD_true_lt_length (l : List Bool) (n : Nat)
    (h : l.getD n false = true) : n < l.length := by
  by_contra hcon
  push_neg at hcon
  rw [List.getD_eq_default _ _ hcon] at h
  cases h
theorem rollback_mask_restore (m : List Bool) (a b : Nat)
    (hne : a ≠ b) (ha : a < m.length) (hb : b < m.length)
    (h6 : m.getD a false = true) (h7 : m.getD b false = false) :
    (((m.set a false).set b true).set b false).set a true = m := by
  rw [List.set_set]
  rw [List.set_comm _ _ _ hne]
  rw [List.set_set]
  have h6' : (m.set b false).getD a false = true := by
    rw [getD_set_ne _ _ _ _ _ (Ne.symm hne)]
    exact h6
  rw [← h6', set_getD_self _ _ _ (by rw [List.length_set]; exact ha)]
  rw [← h7, set_getD_self _ _ _ hb]

/-- A 2x2 board where rolling the die at cell 0 right into cell 1 collides
(same column digit as the die at cell 3), so the move is flagged and rolled
back. -/
def latinDemoController : DiceController :=
  { gridSize := 2, totalCells := 4, rngState := 0,
    diceCellsMask := [true, false, false, true],
    diceOrientations :=
      [CubeOrientation.identity, CubeOrientation.identity,
        CubeOrientation.identity, ⟨.BOTTOM, .EAST, by decide⟩],
    rollingState := some ⟨0, 1, .right, 0⟩,
    pendingRollback := none,
    invalidHighlightCell := none,
    invalidHighlightExpiry := 0 }

/-- Counterexample to claim C5 as stated: after the offending roll 0 → 1 is
finalized (recording the rollback), the rollback fires and finalizes; the
occupancy mask is restored exactly, but the orientations are NOT all those
of the board before the offending roll: the vacated target cell 1 keeps the
rolled orientation instead of its original (stale) one. -/
theorem claim_C5_counterexample :
    (finalizeRollingAnimation latinDemoController 100).pendingRollback =
        some ⟨1, 0, DiceRotation.left⟩ ∧
      (finalizeRollingAnimation (processFrame
          (finalizeRollingAnimation latinDemoController 100) 700)
        1000).diceCellsMask = latinDemoController.diceCellsMask ∧
      (finalizeRollingAnimation (processFrame
          (finalizeRollingAnimation latinDemoController 100) 700)
        1000).diceOrientations.getD 1 CubeOrientation.identity ≠
        latinDemoController.diceOrientations.getD 1
          CubeOrientation.identity := by
  decide
/-- Claim C5 (amended): starting from a valid board with a roll a → b in
flight, if finalizing that roll breaks the Latin-square constraint (so a
rollback is recorded), then: no new roll can start while the rollback is
pending; once the highlight expiry has passed, processFrame clears the
rollback and highlight and starts the stored inverse roll b → a; and when
that inverse roll is finalized, the occupancy mask is exactly the original
one, every cell except the vacated target b keeps its original orientation
(b keeps the rolled orientation -- the claim's "all orientations" fails
there, see the counterexample), the Latin-square constraint holds again,
and no further rollback or roll is pending: convergence after one extra
move. -/
theorem claim_C5_rollback_convergence :
    ∀ (c : DiceController) (a b : Nat) (d : DiceRotation) (t0 t1 : Nat),
      c.rollingState = some ⟨a, b, d, t0⟩ →
      c.pendingRollback = none →
      c.totalCells = c.gridSize * c.gridSize →
      c.diceCellsMask.length = c.totalCells →
      c.diceOrientations.length = c.totalCells →
      c.diceCellsMask.getD a false = true →
      c.diceCellsMask.getD b false = false →
      getTargetCellIndex c.gridSize a d = some b →
      isLatinSquareValid c = true →
      isLatinSquareValid (finalizeMidState c ⟨a, b, d, t0⟩) = false →
      (∀ (now cell : Nat) (dir : DiceRotation),
        startRollingAnimation (finalizeRollingAnimation c t1) now cell dir =
          finalizeRollingAnimation c t1) ∧
      (∀ now, (finalizeRollingAnimation c t1).invalidHighlightExpiry ≤ now →
        processFrame (finalizeRollingAnimation c t1) now =
          { finalizeRollingAnimation c t1 with
              pendingRollback := none,
              invalidHighlightCell := none,
              rollingState := some ⟨b, a, INVERSE_ROTATION d, now⟩ } ∧
        ∀ t3,
          (finalizeRollingAnimation (processFrame
              (finalizeRollingAnimation c t1) now) t3).diceCellsMask =
            c.diceCellsMask ∧
          (∀ i, i ≠ b →
            (finalizeRollingAnimation (processFrame
                (finalizeRollingAnimation c t1) now) t3).diceOrientations.getD
                i CubeOrientation.identity =
              c.diceOrientations.getD i CubeOrientation.identity) ∧
          isLatinSquareValid (finalizeRollingAnimation (processFrame
            (finalizeRollingAnimation c t1) now) t3) = true ∧
          (finalizeRollingAnimation (processFrame
            (finalizeRollingAnimation c t1) now) t3).pendingRollback =
            none ∧
          (finalizeRollingAnimation (processFrame
            (finalizeRollingAnimation c t1) now) t3).rollingState = none) := by
  intro c a b d t0 t1 h1 h2 h3 h4 h5 h6 h7 h8 h9 hviol
  have ha_lt : a < c.diceCellsMask.length := getD_true_lt_length _ _ h6
  have ha_gg : a < c.gridSize * c.gridSize := by omega
  obtain ⟨hbt, hb_gg, hne⟩ :=
    getTargetCellIndex_inverse c.gridSize a b d ha_gg h8
  have hb_lt : b < c.diceCellsMask.length := by omega
  have ha_or : a < c.diceOrientations.length := by omega
  have hb_or : b < c.diceOrientations.length := by omega
  have hs1 : finalizeRollingAnimation c t1 =
      handleInvalidMove (finalizeMidState c ⟨a, b, d, t0⟩) t1 a b d := by
    rw [finalize_eq c t1 ⟨a, b, d, t0⟩ h1, if_neg (by rw [hviol]; simp)]
  constructor
  · intro now cell dir
    rw [hs1]
    unfold startRollingAnimation
    split
    · rfl
    · have hps : (handleInvalidMove (finalizeMidState c ⟨a, b, d, t0⟩)
          t1 a b d).pendingRollback.isSome = true := rfl
      rw [if_pos hps]
  · intro now hexp
    rw [hs1] at hexp
    have hmaskb : (handleInvalidMove (finalizeMidState c ⟨a, b, d, t0⟩)
        t1 a b d).diceCellsMask.getD b false = true := by
      show ((c.diceCellsMask.set a false).set b true).getD b false = true
      rw [getD_set_self]
      rw [List.length_set]
      exact hb_lt
    have hmaska : (handleInvalidMove (finalizeMidState c ⟨a, b, d, t0⟩)
        t1 a b d).diceCellsMask.getD a false = false := by
      show ((c.diceCellsMask.set a false).set b true).getD a false = false
      rw [getD_set_ne _ _ _ _ _ (Ne.symm hne), getD_set_self _ _ _ _ ha_lt]
    have hpf : processFrame (finalizeRollingAnimation c t1) now =
        { finalizeRollingAnimation c t1 with
            pendingRollback := none,
            invalidHighlightCell := none,
            rollingState := some ⟨b, a, INVERSE_ROTATION d, now⟩ } := by
      rw [hs1]
      rw [processFrame_eq _ now ⟨b, a, INVERSE_ROTATION d⟩ rfl
        (by exact hexp) rfl]
      rw [startRollingAnimation_eq _ now b (INVERSE_ROTATION d) a
        (by exact hmaskb) rfl (by exact hbt) (by exact hmaska)]
    refine ⟨hpf, ?_⟩
    intro t3
    rw [hpf, hs1]
    have hrs2 : ({ handleInvalidMove (finalizeMidState c ⟨a, b, d, t0⟩)
          t1 a b d with
        pendingRollback := none,
        invalidHighlightCell := none,
        rollingState :=
          some ⟨b, a, INVERSE_ROTATION d, now⟩ } :
          DiceController).rollingState =
        some ⟨b, a, INVERSE_ROTATION d, now⟩ := rfl
    rw [finalize_eq _ t3 ⟨b, a, INVERSE_ROTATION d, now⟩ hrs2]
    have hmask3 : (finalizeMidState
        { handleInvalidMove (finalizeMidState c ⟨a, b, d, t0⟩) t1 a b d with
          pendingRollback := none,
          invalidHighlightCell := none,
          rollingState := some ⟨b, a, INVERSE_ROTATION d, now⟩ }
        ⟨b, a, INVERSE_ROTATION d, now⟩).diceCellsMask =
        c.diceCellsMask := by
      show (((c.diceCellsMask.set a false).set b true).set b false).set
          a true = c.diceCellsMask
      exact rollback_mask_restore _ a b hne ha_lt hb_lt h6 h7
    have hor3 : ∀ i, i ≠ b → (finalizeMidState
        { handleInvalidMove (finalizeMidState c ⟨a, b, d, t0⟩) t1 a b d with
          pendingRollback := none,
          invalidHighlightCell := none,
          rollingState := some ⟨b, a, INVERSE_ROTATION d, now⟩ }
        ⟨b, a, INVERSE_ROTATION d, now⟩).diceOrientations.getD i
          CubeOrientation.identity =
        c.diceOrientations.getD i CubeOrientation.identity := by
      intro i hib
      show ((c.diceOrientations.set b
          (rollT (c.diceOrientations.getD a CubeOrientation.identity) d)).set
          a (rollT ((c.diceOrientations.set b
            (rollT (c.diceOrientations.getD a CubeOrientation.identity)
              d)).getD b CubeOrientation.identity)
            (INVERSE_ROTATION d))).getD i CubeOrientation.identity =
        c.diceOrientations.getD i CubeOrientation.identity
      rw [getD_set_self c.diceOrientations b
        (rollT (c.diceOrientations.getD a CubeOrientation.identity) d)
        CubeOrientation.identity hb_or]
      rw [rollT_rollT_inverse]
      by_cases hia : i = a
      · subst hia
        rw [getD_set_self _ _ _ _ (by rw [List.length_set]; exact ha_or)]
      · rw [getD_set_ne _ _ _ _ _ (Ne.symm hia),
          getD_set_ne _ _ _ _ _ (Ne.symm hib)]
    have hvalid3 : isLatinSquareValid (finalizeMidState
        { handleInvalidMove (finalizeMidState c ⟨a, b, d, t0⟩) t1 a b d with
          pendingRollback := none,
          invalidHighlightCell := none,
          rollingState := some ⟨b, a, INVERSE_ROTATION d, now⟩ }
        ⟨b, a, INVERSE_ROTATION d, now⟩) = true := by
      refine Eq.trans (isLatinSquareValid_congr c _ rfl rfl ?_ ?_) h9
      · exact hmask3
      · intro i hi
        refine hor3 i ?_
        intro hib
        subst hib
        rw [h7] at hi
        cases hi
    rw [if_pos hvalid3]
    exact ⟨hmask3, hor3, hvalid3, rfl, rfl⟩

theorem claim_C5_witness :
    latinDemoController.rollingState = some ⟨0, 1, DiceRotation.right, 0⟩ ∧
      (finalizeRollingAnimation (processFrame
          (finalizeRollingAnimation latinDemoController 100) 700)
        1000).diceCellsMask = latinDemoController.diceCellsMask := by
  refine ⟨by decide, ?_⟩
  have h := claim_C5_rollback_convergence latinDemoController 0 1 .right 0 100
    (by decide) (by decide) (by decide) (by decide) (by decide) (by decide)
    (by decide) (by decide) (by decide) (by decide)
  exact (((h.2 700 (by decide)).2 1000).1)

/-- The two failure modes of buildPartialLatinSquare: the grid-dimensions
throw and the "Unable to complete Latin square" throw. -/
inductive LatinError where
  | dimsMismatch
  | unsolvable
deriving DecidableEq, Repr

/-- cellIndex = row * width + col. -/
def cellIdx (width : Nat) (p : Nat × Nat) : Nat := p.1 * width + p.2

/-- The occupied positions of the grid, row-major: grid[row][col] = '#'. -/
def gridPositions (height width : Nat) (grid : List (List Char)) :
    List (Nat × Nat) :=
  (List.range height).flatMap (fun row =>
    (List.range width).filterMap (fun col =>
      if (grid.getD row []).getD col ' ' = '#' then some (row, col)
      else none))

mutual
/-- The backtracking `solve` of buildPartialLatinSquare, abstracted over the
option-shuffling function (instantiated with shuffleArray).  State and rng
are threaded; on failure the assignment/used-set restore of the TS code is
the pure reuse of the caller's values. -/
def solveF (shuf : List Nat → Nat → List Nat × Nat) :
    List (Nat × Nat) → Nat → List (Option Nat) → List (List Nat) →
    List (List Nat) → Nat → Option (List (Option Nat)) × Nat
  | [], _, asg, _, _, rng => (some asg, rng)
  | p :: rest, width, asg, rowUsed, colUsed, rng =>
    let options := DICE_DIGITS.filter (fun digit =>
      !(rowUsed.getD p.1 []).contains digit &&
        !(colUsed.getD p.2 []).contains digit)
    match shuf options rng with
    | (shuffledOptions, rng1) =>
      tryDigitsF shuf p rest width asg rowUsed colUsed shuffledOptions rng1
termination_by ps _ _ _ _ _ => (ps.length, 0)

/-- The digit loop of `solve`: assign, recurse, move on to the next digit on
failure. -/
def tryDigitsF (shuf : List Nat → Nat → List Nat × Nat) (p : Nat × Nat)
    (rest : List (Nat × Nat)) (width : Nat) (asg : List (Option Nat))
    (rowUsed colUsed : List (List Nat)) :
    List Nat → Nat → Option (List (Option Nat)) × Nat
  | [], rng => (none, rng)
  | digit :: ds, rng =>
    match solveF shuf rest width (asg.set (cellIdx width p) (some digit))
        (rowUsed.set p.1 (digit :: rowUsed.getD p.1 []))
        (colUsed.set p.2 (digit :: colUsed.getD p.2 [])) rng with
    | (some a, rng2) => (some a, rng2)
    | (none, rng2) => tryDigitsF shuf p rest width asg rowUsed colUsed ds rng2
termination_by ds _ => (rest.length, ds.length + 1)
end

/-- buildPartialLatinSquare: dimension check, occupied positions in
row-major order, shuffled visiting order, then backtracking solve. -/
def buildPartialLatinSquare (gridSize : Nat) (grid : List (List Char))
    (rng : Nat) : Except LatinError (List (Option Nat) × Nat) :=
  let height := grid.length
  let width := if height > 0 then (grid.getD 0 []).length else gridSize
  if height ≠ gridSize ∨ width ≠ gridSize then Except.error .dimsMismatch
  else
    let assignments : List (Option Nat) :=
      List.replicate (gridSize * gridSize) none
    let rowUsed : List (List Nat) := List.replicate height []
    let colUsed : List (List Nat) := List.replicate width []
    match shuffleArray (gridPositions height width grid) rng with
    | (orderedPositions, rng1) =>
      match solveF shuffleArray orderedPositions width assignments
          rowUsed colUsed rng1 with
      | (some a, rng2) => Except.ok (a, rng2)
      | (none, _) => Except.error .unsolvable

theorem cons_set_perm {α : Type} :
    ∀ (l : List α) (j : Nat) (a : α) (h : j < l.length),
      List.Perm (l.get ⟨j, h⟩ :: l.set j a) (a :: l) := by
  intro l
  induction l with
  | nil => intro j a h; exact absurd h (Nat.not_lt_zero j)
  | cons x t ih =>
    intro j a h
    cases j with
    | zero =>
      show List.Perm (x :: a :: t) (a :: x :: t)
      exact List.Perm.swap a x t
    | succ k =>
      have hk : k < t.length := Nat.lt_of_succ_lt_succ h
      show List.Perm (t.get ⟨k, hk⟩ :: x :: t.set k a) (a :: x :: t)
      exact (List.Perm.swap x (t.get ⟨k, hk⟩) (t.set k a)).trans
        ((List.Perm.cons x (ih k a hk)).trans (List.Perm.swap a x t))

theorem set_set_perm {α : Type} :
    ∀ (l : List α) (i j : Nat) (hi : i < l.length) (hj : j < l.length),
      List.Perm ((l.set i (l.get ⟨j, hj⟩)).set j (l.get ⟨i, hi⟩)) l := by
  intro l
  induction l with
  | nil => intro i j hi _; exact absurd hi (Nat.not_lt_zero i)
  | cons x t ih =>
    intro i j hi hj
    cases i with
    | zero =>
      cases j with
      | zero => exact List.Perm.refl _
      | succ k =>
        have hk : k < t.length := Nat.lt_of_succ_lt_succ hj
        show List.Perm (t.get ⟨k, hk⟩ :: t.set k x) (x :: t)
        exact cons_set_perm t k x hk
    | succ m =>
      have hm : m < t.length := Nat.lt_of_succ_lt_succ hi
      cases j with
      | zero =>
        show List.Perm (t.get ⟨m, hm⟩ :: t.set m x) (x :: t)
        exact cons_set_perm t m x hm
      | succ k =>
        have hk : k < t.length := Nat.lt_of_succ_lt_succ hj
        show List.Perm
          (x :: (t.set m (t.get ⟨k, hk⟩)).set k (t.get ⟨m, hm⟩)) (x :: t)
        exact List.Perm.cons x (ih m k hm hk)

theorem listSwap_perm {α : Type} (l : List α) (i j : Nat) :
    List.Perm (listSwap l i j) l := by
  unfold listSwap
  split
  · rename_i a b hi hj
    obtain ⟨hil, ha⟩ := List.get?_eq_some.1 hi
    obtain ⟨hjl, hb⟩ := List.get?_eq_some.1 hj
    rw [← ha, ← hb]
    exact set_set_perm l i j hil hjl
  · exact List.Perm.refl _

theorem shuffleGoF_perm {α : Type} (rand : Nat → Nat → Nat × Nat) :
    ∀ (i : Nat) (l : List α) (s : Nat),
      List.Perm (shuffleGoF rand l s i).1 l := by
  intro i
  induction i with
  | zero =>
    intro l s
    simp only [shuffleGoF]
    exact List.Perm.refl _
  | succ k ih =>
    intro l s
    simp only [shuffleGoF]
    obtain ⟨j, s1, hr⟩ : ∃ j s1, rand s (k + 2) = (j, s1) := ⟨_, _, rfl⟩
    rw [hr]
    exact (ih _ _).trans (listSwap_perm l (k + 1) j)

theorem shuffleArray_perm {α : Type} (l : List α) (s : Nat) :
    List.Perm (shuffleArray l s).1 l :=
  shuffleGoF_perm randIndex _ l s

theorem getD_replicate_self {α : Type} (n i : Nat) (x : α) :
    (List.replicate n x).getD i x = x := by
  induction n generalizing i with
  | zero => rfl
  | succ m ih =>
    cases i with
    | zero => rfl
    | succ k => exact ih k

theorem cellIdx_lt (g : Nat) (p : Nat × Nat) (h1 : p.1 < g) (h2 : p.2 < g) :
    cellIdx g p < g * g := by
  have hle : (p.1 + 1) * g ≤ g * g := Nat.mul_le_mul_right g h1
  have hexp : (p.1 + 1) * g = p.1 * g + g := by
    rw [Nat.add_mul, Nat.one_mul]
  unfold cellIdx
  omega

theorem cellIdx_inj (width : Nat) (p q : Nat × Nat) (hp : p.2 < width)
    (hq : q.2 < width) (h : cellIdx width p = cellIdx width q) : p = q := by
  unfold cellIdx at h
  have hw : 0 < width := by omega
  have hd1 : (p.1 * width + p.2) / width = p.1 := by
    rw [Nat.mul_comm, Nat.mul_add_div hw]
    simp [Nat.div_eq_of_lt hp]
  have hd2 : (q.1 * width + q.2) / width = q.1 := by
    rw [Nat.mul_comm, Nat.mul_add_div hw]
    simp [Nat.div_eq_of_lt hq]
  have hm1 : (p.1 * width + p.2) % width = p.2 := by
    rw [Nat.mul_comm, Nat.mul_add_mod]
    exact Nat.mod_eq_of_lt hp
  have hm2 : (q.1 * width + q.2) % width = q.2 := by
    rw [Nat.mul_comm, Nat.mul_add_mod]
    exact Nat.mod_eq_of_lt hq
  have e1 : p.1 = q.1 := by rw [← hd1, h, hd2]
  have e2 : p.2 = q.2 := by rw [← hm1, h, hm2]
  exact Prod.ext e1 e2

theorem mem_gridRow (row width : Nat) (grid : List (List Char))
    (x : Nat × Nat) :
    x ∈ (List.range width).filterMap (fun col =>
        if (grid.getD row []).getD col ' ' = '#' then some (row, col)
        else none) ↔
      x.1 = row ∧ x.2 < width ∧ (grid.getD row []).getD x.2 ' ' = '#' := by
  simp only [List.mem_filterMap, List.mem_range]
  constructor
  · rintro ⟨col, hcol, hif⟩
    split at hif
    · rename_i hr
      rw [Option.some.injEq] at hif
      cases hif
      exact ⟨rfl, hcol, hr⟩
    · cases hif
  · rintro ⟨h1, h2, h3⟩
    subst h1
    exact ⟨x.2, h2, by rw [if_pos h3, Prod.mk.eta]⟩

theorem mem_gridPositions (height width : Nat) (grid : List (List Char))
    (p : Nat × Nat) :
    p ∈ gridPositions height width grid ↔
      p.1 < height ∧ p.2 < width ∧
        (grid.getD p.1 []).getD p.2 ' ' = '#' := by
  simp only [gridPositions, List.mem_flatMap, List.mem_range]
  constructor
  · rintro ⟨row, hrow, hmem⟩
    obtain ⟨h1, h2, h3⟩ := (mem_gridRow row width grid p).1 hmem
    subst h1
    exact ⟨hrow, h2, h3⟩
  · rintro ⟨h1, h2, h3⟩
    exact ⟨p.1, h1, (mem_gridRow p.1 width grid p).2 ⟨rfl, h2, h3⟩⟩

theorem nodup_gridPositions (height width : Nat) (grid : List (List Char)) :
    (gridPositions height width grid).Nodup := by
  unfold gridPositions
  rw [List.nodup_flatMap]
  constructor
  · intro row _
    refine List.Nodup.filterMap ?_ (List.nodup_range width)
    intro a a2 b hb hb2
    have ha : a = b.2 := by
      revert hb
      split
      · intro hb
        rw [Option.mem_def, Option.some.injEq] at hb
        rw [← hb]
      · intro hb
        cases hb
    have ha2 : a2 = b.2 := by
      revert hb2
      split
      · intro hb2
        rw [Option.mem_def, Option.some.injEq] at hb2
        rw [← hb2]
      · intro hb2
        cases hb2
    rw [ha, ha2]
  · refine List.Pairwise.imp ?_ (List.nodup_range height)
    intro r1 r2 hne x hx1 hx2
    obtain ⟨e1, _, _⟩ := (mem_gridRow r1 width grid x).1 hx1
    obtain ⟨e2, _, _⟩ := (mem_gridRow r2 width grid x).1 hx2
    exact hne (e1.symm.trans e2)

/-- What a successful solve guarantees, relative to the entry state: the
assignment is untouched off the visited cells, every visited cell got a
digit unused in its row/column entry sets, and visited cells sharing a row
or column got distinct digits. -/
def SolvePost (width : Nat) (asg : List (Option Nat))
    (ru cu : List (List Nat)) (ps : List (Nat × Nat))
    (a : List (Option Nat)) : Prop :=
  a.length = asg.length ∧
  (∀ i, (∀ p ∈ ps, cellIdx width p ≠ i) → a.getD i none = asg.getD i none) ∧
  (∀ p ∈ ps, ∃ dg, a.getD (cellIdx width p) none = some dg ∧
    dg ∈ DICE_DIGITS ∧ dg ∉ ru.getD p.1 [] ∧ dg ∉ cu.getD p.2 []) ∧
  List.Pairwise (fun p q => p ≠ q → (p.1 = q.1 ∨ p.2 = q.2) →
    a.getD (cellIdx width p) none ≠ a.getD (cellIdx width q) none) ps

theorem mem_optionsFilter (ru cu : List (List Nat)) (r c dg : Nat) :
    dg ∈ DICE_DIGITS.filter (fun digit =>
        !(ru.getD r []).contains digit && !(cu.getD c []).contains digit) ↔
      dg ∈ DICE_DIGITS ∧ dg ∉ ru.getD r [] ∧ dg ∉ cu.getD c [] := by
  simp [List.mem_filter]

theorem solveF_sound (shuf : List Nat → Nat → List Nat × Nat)
    (hshuf : ∀ (l : List Nat) (s : Nat), List.Perm (shuf l s).1 l) :
    ∀ (ps : List (Nat × Nat)) (width : Nat) (asg : List (Option Nat))
      (ru cu : List (List Nat)) (rng : Nat) (a : List (Option Nat))
      (rng2 : Nat),
      ps.Nodup →
      (∀ p ∈ ps, p.1 < ru.length ∧ p.2 < cu.length ∧ p.2 < width ∧
        cellIdx width p < asg.length) →
      solveF shuf ps width asg ru cu rng = (some a, rng2) →
      SolvePost width asg ru cu ps a := by
  intro ps
  induction ps with
  | nil =>
    intro width asg ru cu rng a rng2 _ _ hsolve
    simp only [solveF, Prod.mk.injEq, Option.some.injEq] at hsolve
    obtain ⟨ha, _⟩ := hsolve
    subst ha
    exact ⟨rfl, fun i _ => rfl, fun p hp => absurd hp (List.not_mem_nil p),
      List.Pairwise.nil⟩
  | cons p rest ih =>
    intro width asg ru cu rng a rng2 hnd hbnd hsolve
    simp only [solveF] at hsolve
    obtain ⟨sh, rng1, hsh⟩ : ∃ sh rng1,
        shuf (DICE_DIGITS.filter (fun digit =>
          !(ru.getD p.1 []).contains digit &&
            !(cu.getD p.2 []).contains digit)) rng = (sh, rng1) :=
      ⟨_, _, rfl⟩
    simp only [hsh] at hsolve
    have hperm : List.Perm sh (DICE_DIGITS.filter (fun digit =>
        !(ru.getD p.1 []).contains digit &&
          !(cu.getD p.2 []).contains digit)) := by
      have hp2 := hshuf (DICE_DIGITS.filter (fun digit =>
        !(ru.getD p.1 []).contains digit &&
          !(cu.getD p.2 []).contains digit)) rng
      rw [hsh] at hp2
      exact hp2
    have hmem_sh : ∀ dg ∈ sh, dg ∈ DICE_DIGITS ∧ dg ∉ ru.getD p.1 [] ∧
        dg ∉ cu.getD p.2 [] := fun dg hdg =>
      (mem_optionsFilter ru cu p.1 p.2 dg).1 (hperm.mem_iff.1 hdg)
    have hpnotin : p ∉ rest := (List.nodup_cons.1 hnd).1
    have hndrest : rest.Nodup := (List.nodup_cons.1 hnd).2
    obtain ⟨pb1, pb2, pb3, pb4⟩ := hbnd p (List.mem_cons_self p rest)
    clear hsh hperm
    revert hsolve
    revert rng1
    induction sh with
    | nil =>
      intro rng1 htd
      simp only [tryDigitsF, Prod.mk.injEq] at htd
      exact absurd htd.1 (by simp)
    | cons dg ds2 ihds =>
      intro rng1 htd
      simp only [tryDigitsF] at htd
      obtain ⟨res, rngy, hres⟩ : ∃ res rngy,
          solveF shuf rest width (asg.set (cellIdx width p) (some dg))
            (ru.set p.1 (dg :: ru.getD p.1 []))
            (cu.set p.2 (dg :: cu.getD p.2 [])) rng1 = (res, rngy) :=
        ⟨_, _, rfl⟩
      simp only [hres] at htd
      cases res with
      | some a2 =>
        simp only [Prod.mk.injEq, Option.some.injEq] at htd
        obtain ⟨ha2, _⟩ := htd
        subst ha2
        have hbnd2 : ∀ q ∈ rest,
            q.1 < (ru.set p.1 (dg :: ru.getD p.1 [])).length ∧
              q.2 < (cu.set p.2 (dg :: cu.getD p.2 [])).length ∧
              q.2 < width ∧ cellIdx width q <
                (asg.set (cellIdx width p) (some dg)).length := by
          intro q hq
          obtain ⟨b1, b2, b3, b4⟩ := hbnd q (List.mem_cons_of_mem p hq)
          refine ⟨?_, ?_, b3, ?_⟩ <;> rw [List.length_set]
          · exact b1
          · exact b2
          · exact b4
        obtain ⟨hlen, hframe, hvals, hpair⟩ :=
          ih width _ _ _ rng1 a2 rngy hndrest hbnd2 hres
        have hdg := hmem_sh dg (List.mem_cons_self dg ds2)
        have hneq : ∀ q ∈ rest, cellIdx width q ≠ cellIdx width p := by
          intro q hq hcontra
          obtain ⟨qb1, qb2, qb3, qb4⟩ := hbnd q (List.mem_cons_of_mem p hq)
          exact hpnotin ((cellIdx_inj width q p qb3 pb3 hcontra) ▸ hq)
        have hvalp : a2.getD (cellIdx width p) none = some dg := by
          rw [hframe (cellIdx width p) hneq]
          exact getD_set_self _ _ _ _ pb4
        refine ⟨?_, ?_, ?_, ?_⟩
        · rw [hlen, List.length_set]
        · intro i hi
          rw [hframe i (fun q hq => hi q (List.mem_cons_of_mem p hq))]
          exact getD_set_ne _ _ _ _ _ (hi p (List.mem_cons_self p rest))
        · intro q hq
          rcases List.mem_cons.1 hq with rfl | hq2
          · exact ⟨dg, hvalp, hdg.1, hdg.2.1, hdg.2.2⟩
          · obtain ⟨dq, hdq1, hdq2, hdq3, hdq4⟩ := hvals q hq2
            obtain ⟨qb1, qb2, qb3, qb4⟩ :=
              hbnd q (List.mem_cons_of_mem p hq2)
            refine ⟨dq, hdq1, hdq2, ?_, ?_⟩
            · by_cases hrow : q.1 = p.1
              · rw [hrow, getD_set_self _ _ _ _ pb1] at hdq3
                rw [hrow]
                exact fun hmem => hdq3 (List.mem_cons_of_mem dg hmem)
              · rw [getD_set_ne _ _ _ _ _
                  (fun hh => hrow hh.symm)] at hdq3
                exact hdq3
            · by_cases hcol : q.2 = p.2
              · rw [hcol, getD_set_self _ _ _ _ pb2] at hdq4
                rw [hcol]
                exact fun hmem => hdq4 (List.mem_cons_of_mem dg hmem)
              · rw [getD_set_ne _ _ _ _ _
                  (fun hh => hcol hh.symm)] at hdq4
                exact hdq4
        · rw [List.pairwise_cons]
          constructor
          · intro q hq _ hsame
            obtain ⟨dq, hdq1, hdq2, hdq3, hdq4⟩ := hvals q hq
            rw [hvalp, hdq1]
            intro hcontra
            rw [Option.some.injEq] at hcontra
            rcases hsame with hrow | hcol
            · rw [← hrow] at hdq3
              rw [getD_set_self _ _ _ _ pb1] at hdq3
              exact hdq3 (hcontra ▸ List.mem_cons_self dg _)
            · rw [← hcol] at hdq4
              rw [getD_set_self _ _ _ _ pb2] at hdq4
              exact hdq4 (hcontra ▸ List.mem_cons_self dg _)
          · exact hpair
      | none =>
        exact ihds (fun d hd => hmem_sh d (List.mem_cons_of_mem dg hd))
          rngy htd

theorem solveF_complete (shuf : List Nat → Nat → List Nat × Nat)
    (hshuf : ∀ (l : List Nat) (s : Nat), List.Perm (shuf l s).1 l) :
    ∀ (ps : List (Nat × Nat)) (width : Nat) (asg : List (Option Nat))
      (ru cu : List (List Nat)) (rng : Nat) (f : Nat × Nat → Nat),
      ps.Nodup →
      (∀ p ∈ ps, p.1 < ru.length ∧ p.2 < cu.length) →
      (∀ p ∈ ps, f p ∈ DICE_DIGITS ∧ f p ∉ ru.getD p.1 [] ∧
        f p ∉ cu.getD p.2 []) →
      (∀ p ∈ ps, ∀ q ∈ ps, p ≠ q → (p.1 = q.1 ∨ p.2 = q.2) → f p ≠ f q) →
      (solveF shuf ps width asg ru cu rng).1.isSome = true := by
  intro ps
  induction ps with
  | nil =>
    intro width asg ru cu rng f _ _ _ _
    simp only [solveF]
    rfl
  | cons p rest ih =>
    intro width asg ru cu rng f hnd hbnd hf hdist
    simp only [solveF]
    obtain ⟨sh, rng1, hsh⟩ : ∃ sh rng1,
        shuf (DICE_DIGITS.filter (fun digit =>
          !(ru.getD p.1 []).contains digit &&
            !(cu.getD p.2 []).contains digit)) rng = (sh, rng1) :=
      ⟨_, _, rfl⟩
    simp only [hsh]
    have hperm : List.Perm sh (DICE_DIGITS.filter (fun digit =>
        !(ru.getD p.1 []).contains digit &&
          !(cu.getD p.2 []).contains digit)) := by
      have hp2 := hshuf (DICE_DIGITS.filter (fun digit =>
        !(ru.getD p.1 []).contains digit &&
          !(cu.getD p.2 []).contains digit)) rng
      rw [hsh] at hp2
      exact hp2
    have hfp := hf p (List.mem_cons_self p rest)
    have hfpsh : f p ∈ sh :=
      hperm.mem_iff.2 ((mem_optionsFilter ru cu p.1 p.2 (f p)).2
        ⟨hfp.1, hfp.2.1, hfp.2.2⟩)
    have hpnotin : p ∉ rest := (List.nodup_cons.1 hnd).1
    have hndrest : rest.Nodup := (List.nodup_cons.1 hnd).2
    obtain ⟨pb1, pb2⟩ := hbnd p (List.mem_cons_self p rest)
    clear hsh hperm
    revert hfpsh
    revert rng1
    induction sh with
    | nil =>
      intro rng1 hfpsh
      exact absurd hfpsh (List.not_mem_nil (f p))
    | cons dg ds2 ihds =>
      intro rng1 hfpsh
      simp only [tryDigitsF]
      obtain ⟨res, rngy, hres⟩ : ∃ res rngy,
          solveF shuf rest width (asg.set (cellIdx width p) (some dg))
            (ru.set p.1 (dg :: ru.getD p.1 []))
            (cu.set p.2 (dg :: cu.getD p.2 [])) rng1 = (res, rngy) :=
        ⟨_, _, rfl⟩
    
      cases res with
      | some a2 =>
        simp only [hres]
        rfl
      | none =>
        simp only [hres]
        by_cases hdgfp : dg = f p
        · exfalso
          have hbnd2 : ∀ q ∈ rest,
              q.1 < (ru.set p.1 (dg :: ru.getD p.1 [])).length ∧
                q.2 < (cu.set p.2 (dg :: cu.getD p.2 [])).length := by
            intro q hq
            obtain ⟨b1, b2⟩ := hbnd q (List.mem_cons_of_mem p hq)
            constructor <;> rw [List.length_set]
            · exact b1
            · exact b2
          have hf2 : ∀ q ∈ rest, f q ∈ DICE_DIGITS ∧
              f q ∉ (ru.set p.1 (dg :: ru.getD p.1 [])).getD q.1 [] ∧
              f q ∉ (cu.set p.2 (dg :: cu.getD p.2 [])).getD q.2 [] := by
            intro q hq
            have hfq := hf q (List.mem_cons_of_mem p hq)
            refine ⟨hfq.1, ?_, ?_⟩
            · by_cases hrow : q.1 = p.1
              · rw [hrow, getD_set_self _ _ _ _ pb1]
                intro hmem
                rcases List.mem_cons.1 hmem with heq | hmem2
                · exact hdist q (List.mem_cons_of_mem p hq) p
                    (List.mem_cons_self p rest)
                    (fun hqp => hpnotin (hqp ▸ hq)) (Or.inl hrow)
                    (heq.trans hdgfp)
                · exact (hrow ▸ hfq.2.1) hmem2
              · rw [getD_set_ne _ _ _ _ _ (fun hh => hrow hh.symm)]
                exact hfq.2.1
            · by_cases hcol : q.2 = p.2
              · rw [hcol, getD_set_self _ _ _ _ pb2]
                intro hmem
                rcases List.mem_cons.1 hmem with heq | hmem2
                · exact hdist q (List.mem_cons_of_mem p hq) p
                    (List.mem_cons_self p rest)
                    (fun hqp => hpnotin (hqp ▸ hq)) (Or.inr hcol)
                    (heq.trans hdgfp)
                · exact (hcol ▸ hfq.2.2) hmem2
              · rw [getD_set_ne _ _ _ _ _ (fun hh => hcol hh.symm)]
                exact hfq.2.2
          have hdist2 : ∀ p2 ∈ rest, ∀ q ∈ rest, p2 ≠ q →
              (p2.1 = q.1 ∨ p2.2 = q.2) → f p2 ≠ f q := fun p2 hp2 q hq =>
            hdist p2 (List.mem_cons_of_mem p hp2) q
              (List.mem_cons_of_mem p hq)
          have hsucc := ih width (asg.set (cellIdx width p) (some dg))
            (ru.set p.1 (dg :: ru.getD p.1 []))
            (cu.set p.2 (dg :: cu.getD p.2 [])) rng1 f hndrest hbnd2
            hf2 hdist2
          rw [hres] at hsucc
          cases hsucc
        · have hmem2 : f p ∈ ds2 := by
            rcases List.mem_cons.1 hfpsh with heq | h2
            · exact absurd heq.symm hdgfp
            · exact h2
          exact ihds rngy hmem2

/-- The spec's notion of a valid partial-Latin assignment for the occupancy
grid: every occupied cell carries a digit 1-6, no two occupied cells of the
same row or of the same column share a digit, and unoccupied cells stay
unassigned. -/
def GoodLatinAssignment (gridSize : Nat) (grid : List (List Char))
    (a : List (Option Nat)) : Prop :=
  (∀ p ∈ gridPositions gridSize gridSize grid,
    ∃ dg, a.getD (cellIdx gridSize p) none = some dg ∧ dg ∈ DICE_DIGITS) ∧
  (∀ p ∈ gridPositions gridSize gridSize grid,
    ∀ q ∈ gridPositions gridSize gridSize grid, p ≠ q →
      (p.1 = q.1 ∨ p.2 = q.2) →
        a.getD (cellIdx gridSize p) none ≠
          a.getD (cellIdx gridSize q) none) ∧
  (∀ i, (∀ p ∈ gridPositions gridSize gridSize grid,
    cellIdx gridSize p ≠ i) → a.getD i none = none)

/-- The spec's solvability condition for an occupancy shape: some choice of
digits 1-6 on the occupied cells avoids every row and column clash. -/
def LatinAssignmentExists (gridSize : Nat) (grid : List (List Char)) : Prop :=
  ∃ f : Nat × Nat → Nat,
    (∀ p ∈ gridPositions gridSize gridSize grid, f p ∈ DICE_DIGITS) ∧
    (∀ p ∈ gridPositions gridSize gridSize grid,
      ∀ q ∈ gridPositions gridSize gridSize grid, p ≠ q →
        (p.1 = q.1 ∨ p.2 = q.2) → f p ≠ f q)

theorem pairwise_forall_ne {α : Type} {R : α → α → Prop}
    (hsym : ∀ x y, R x y → R y x) :
    ∀ (l : List α), l.Pairwise R → ∀ x ∈ l, ∀ y ∈ l, x ≠ y → R x y := by
  intro l
  induction l with
  | nil =>
    intro _ x hx
    exact absurd hx (List.not_mem_nil x)
  | cons z t ih =>
    intro hp x hx y hy hne
    obtain ⟨hz, ht⟩ := List.pairwise_cons.1 hp
    rcases List.mem_cons.1 hx with rfl | hx2
    · rcases List.mem_cons.1 hy with rfl | hy2
      · exact absurd rfl hne
      · exact hz y hy2
    · rcases List.mem_cons.1 hy with rfl | hy2
      · exact hsym y x (hz x hx2)
      · exact ih ht x hx2 y hy2 hne

/-- Claim C3: for an N by N occupancy grid, buildPartialLatinSquare either
returns an assignment giving every occupied cell a digit in 1-6 such that
no two occupied cells of a row and no two of a column share a digit, with
unoccupied cells left unassigned, or it fails with the unsolvable error;
and it fails with that error exactly when no such choice of digits exists
for the occupancy shape. -/
theorem claim_C3_latin_solver (gridSize : Nat) (grid : List (List Char))
    (rng : Nat) (hh : grid.length = gridSize)
    (hw : ∀ row ∈ grid, row.length = gridSize) :
    ((∃ a rng2, buildPartialLatinSquare gridSize grid rng =
        Except.ok (a, rng2) ∧ GoodLatinAssignment gridSize grid a) ∨
      buildPartialLatinSquare gridSize grid rng =
        Except.error LatinError.unsolvable) ∧
    (buildPartialLatinSquare gridSize grid rng =
        Except.error LatinError.unsolvable ↔
      ¬ LatinAssignmentExists gridSize grid) := by
  have hwid : (if grid.length > 0 then (grid.getD 0 []).length else gridSize)
      = gridSize := by
    cases grid with
    | nil => simp
    | cons r rest =>
      rw [if_pos (by simp)]
      exact hw r (List.mem_cons_self r rest)
  simp only [buildPartialLatinSquare]
  rw [hwid]
  rw [hh]
  rw [if_neg (by simp)]
  obtain ⟨ops, rng1, hops⟩ : ∃ ops rng1,
      shuffleArray (gridPositions gridSize gridSize grid) rng = (ops, rng1) :=
    ⟨_, _, rfl⟩
  simp only [hops]
  have hperm : List.Perm ops (gridPositions gridSize gridSize grid) := by
    have hp := shuffleArray_perm (gridPositions gridSize gridSize grid) rng
    rw [hops] at hp
    exact hp
  have hnd : ops.Nodup := hperm.nodup_iff.mpr (nodup_gridPositions _ _ _)
  have hbmem : ∀ p ∈ ops, p.1 < gridSize ∧ p.2 < gridSize := by
    intro p hp
    have hg := (mem_gridPositions gridSize gridSize grid p).1
      (hperm.mem_iff.1 hp)
    exact ⟨hg.1, hg.2.1⟩
  obtain ⟨res, rng2, hres⟩ : ∃ res rng2,
      solveF shuffleArray ops gridSize
        (List.replicate (gridSize * gridSize) (none : Option Nat))
        (List.replicate gridSize ([] : List Nat))
        (List.replicate gridSize ([] : List Nat)) rng1 = (res, rng2) :=
    ⟨_, _, rfl⟩
  simp only [hres]
  cases res with
  | some a =>
    have hpost := solveF_sound shuffleArray shuffleArray_perm ops gridSize
      (List.replicate (gridSize * gridSize) (none : Option Nat))
      (List.replicate gridSize ([] : List Nat))
      (List.replicate gridSize ([] : List Nat)) rng1 a rng2 hnd
      (by
        intro p hp
        obtain ⟨h1, h2⟩ := hbmem p hp
        refine ⟨?_, ?_, h2, ?_⟩
        · rw [List.length_replicate]
          exact h1
        · rw [List.length_replicate]
          exact h2
        · rw [List.length_replicate]
          exact cellIdx_lt gridSize p h1 h2)
      hres
    obtain ⟨hlen, hframe, hdig, hpair⟩ := hpost
    have hgood : GoodLatinAssignment gridSize grid a := by
      refine ⟨?_, ?_, ?_⟩
      · intro p hp
        obtain ⟨dg, hdg1, hdg2, _, _⟩ := hdig p (hperm.mem_iff.2 hp)
        exact ⟨dg, hdg1, hdg2⟩
      · intro p hp q hq hne hsame
        refine pairwise_forall_ne ?_ ops hpair p (hperm.mem_iff.2 hp) q
          (hperm.mem_iff.2 hq) hne hne hsame
        intro x y h hxy hsame2 heq
        exact h hxy.symm (hsame2.imp Eq.symm Eq.symm) heq.symm
      · intro i hi
        have hfr := hframe i (fun p hp => hi p (hperm.mem_iff.1 hp))
        rw [hfr, getD_replicate_self]
    refine ⟨Or.inl ⟨a, rng2, rfl, hgood⟩, ?_, ?_⟩
    · intro hcE
      exact Except.noConfusion hcE
    · intro hnex
      exfalso
      apply hnex
      refine ⟨fun p => (a.getD (cellIdx gridSize p) none).getD 0, ?_, ?_⟩
      · intro p hp
        obtain ⟨dg, hdg1, hdg2, _, _⟩ := hdig p (hperm.mem_iff.2 hp)
        show (a.getD (cellIdx gridSize p) none).getD 0 ∈ DICE_DIGITS
        rw [hdg1]
        exact hdg2
      · intro p hp q hq hne hsame
        obtain ⟨dp, hdp1, _, _, _⟩ := hdig p (hperm.mem_iff.2 hp)
        obtain ⟨dq, hdq1, _, _, _⟩ := hdig q (hperm.mem_iff.2 hq)
        have hneq := pairwise_forall_ne (fun x y h hxy hsame2 heq =>
            h hxy.symm (hsame2.imp Eq.symm Eq.symm) heq.symm)
          ops hpair p (hperm.mem_iff.2 hp) q (hperm.mem_iff.2 hq) hne hne
          hsame
        rw [hdp1, hdq1] at hneq
        show (a.getD (cellIdx gridSize p) none).getD 0 ≠
          (a.getD (cellIdx gridSize q) none).getD 0
        rw [hdp1, hdq1]
        simp only [Option.getD_some]
        intro heq
        exact hneq (by rw [heq])
  | none =>
    have hcomp : ¬ LatinAssignmentExists gridSize grid := by
      rintro ⟨f, hfd, hfdist⟩
      have hsucc := solveF_complete shuffleArray shuffleArray_perm ops
        gridSize (List.replicate (gridSize * gridSize) (none : Option Nat))
        (List.replicate gridSize ([] : List Nat))
        (List.replicate gridSize ([] : List Nat)) rng1 f hnd
        (by
          intro p hp
          obtain ⟨h1, h2⟩ := hbmem p hp
          rw [List.length_replicate]
          exact ⟨h1, h2⟩)
        (by
          intro p hp
          refine ⟨hfd p (hperm.mem_iff.1 hp), ?_, ?_⟩
          · rw [getD_replicate_self]
            exact List.not_mem_nil (f p)
          · rw [getD_replicate_self]
            exact List.not_mem_nil (f p))
        (fun p hp q hq hne hsame =>
          hfdist p (hperm.mem_iff.1 hp) q (hperm.mem_iff.1 hq) hne hsame)
      rw [hres] at hsucc
      simp at hsucc
    exact ⟨Or.inr rfl, fun _ => hcomp, fun _ => rfl⟩

/-- Witness for claim C3: the 1 by 1 grid whose only cell is occupied, at
seed 0, satisfies the hypotheses and the conclusion. -/
theorem claim_C3_witness :
    ([['#']] : List (List Char)).length = 1 ∧
    (∀ row ∈ ([['#']] : List (List Char)), row.length = 1) ∧
    (((∃ a rng2, buildPartialLatinSquare 1 [['#']] 0 =
        Except.ok (a, rng2) ∧ GoodLatinAssignment 1 [['#']] a) ∨
      buildPartialLatinSquare 1 [['#']] 0 =
        Except.error LatinError.unsolvable) ∧
    (buildPartialLatinSquare 1 [['#']] 0 =
        Except.error LatinError.unsolvable ↔
      ¬ LatinAssignmentExists 1 [['#']])) :=
  ⟨rfl, by decide, claim_C3_latin_solver 1 [['#']] 0 rfl (by decide)⟩

end Sudoku
